import Mathlib

/-!
Verification of the p2p-video-calling-secure repository.

This development shallowly embeds the parts of the code base that the
checked properties talk about:

* src/src/lib/base64.ts         (byte/base64 codec)
* src/src/lib/signalCrypto.ts   (passphrase-based authenticated encryptor)
* src/src/lib/signalPacket.ts   (envelope codec, strict variant: the first
                                 document in that file, the one carrying the
                                 size caps and the associated-data binding)
* src/unnamed/part_003          (quality controller)
* src/backend/src/server.ts     (room store and relay credentials)

Text is modelled as List Char and byte strings as List Nat (each entry
meant to be < 256, stated as a hypothesis where it matters).  Fallible
code returns Except String, carrying the thrown error message.

External runtime primitives that the code calls but that are not part of
the repository (WebCrypto AES-GCM and PBKDF2, pako gzip, JSON.stringify /
JSON.parse together with the structural half of the zod schemas, TextEncoder,
node HMAC-SHA1) are passed to the embedded functions as explicit function
arguments; the theorems state the contracts they rely on as hypotheses,
and witnesses instantiate them with simple concrete functions.  The btoa
and atob runtime primitives are modelled concretely as standard base64,
since the repository code (bytesToBase64Url and base64UrlToBytes) is a
thin wrapper whose behaviour is the subject of a claim.
-/

set_option maxRecDepth 100000

namespace P2P

/-- Bytes of a binary string. -/
abbrev Bytes := List Nat

/-- Characters of a JavaScript string. -/
abbrev Str := List Char

/-- Equality of Except values is decidable when it is on both sides. -/
instance {e a : Type} [DecidableEq e] [DecidableEq a] : DecidableEq (Except e a) :=
  fun x y =>
    match x, y with
    | .ok v, .ok w => decidable_of_iff (v = w) (by simp)
    | .error v, .error w => decidable_of_iff (v = w) (by simp)
    | .ok _, .error _ => isFalse (by simp)
    | .error _, .ok _ => isFalse (by simp)

/-! ## Decimal rendering, a model of JS String(n) for non-negative integers -/

/-- Fuel-driven worker for decimal rendering. -/
def natDecimalGo : Nat → Nat → List Char
  | 0, _ => []
  | fuel + 1, n =>
    if n < 10 then [Nat.digitChar n]
    else natDecimalGo fuel (n / 10) ++ [Nat.digitChar (n % 10)]

/-- Decimal digit string of a natural number, the model of JS String(n)
    and of template interpolation of an integer. -/
def natDecimal (n : Nat) : List Char := natDecimalGo (n + 1) n

/-- Numeric value of a digit string, most significant digit first. -/
def decimalVal (ds : List Char) : Nat :=
  ds.foldl (fun acc c => acc * 10 + (c.toNat - 48)) 0

theorem decimalVal_append (a b : List Char) :
    decimalVal (a ++ b) = (b.foldl (fun acc c => acc * 10 + (c.toNat - 48)) (decimalVal a)) := by
  simp [decimalVal, List.foldl_append]

theorem digitChar_toNat {n : Nat} (h : n < 10) : (Nat.digitChar n).toNat = 48 + n := by
  interval_cases n <;> rfl

theorem natDecimalGo_val : ∀ fuel n, n < fuel → decimalVal (natDecimalGo fuel n) = n := by
  intro fuel
  induction fuel with
  | zero => intro n h; omega
  | succ f ih =>
    intro n h
    by_cases h10 : n < 10
    · simp only [natDecimalGo, if_pos h10]
      simp [decimalVal, digitChar_toNat h10]
    · simp only [natDecimalGo, if_neg h10]
      have hdiv : n / 10 < f := by
        have := Nat.div_lt_self (by omega : 0 < n) (by omega : 1 < 10)
        omega
      rw [decimalVal_append, ih (n / 10) hdiv]
      simp [digitChar_toNat (Nat.mod_lt n (by omega) : n % 10 < 10)]
      omega

theorem decimalVal_natDecimal (n : Nat) : decimalVal (natDecimal n) = n :=
  natDecimalGo_val (n + 1) n (Nat.lt_succ_self n)

theorem natDecimal_injective : Function.Injective natDecimal := by
  intro a b h
  have := decimalVal_natDecimal a
  rw [h, decimalVal_natDecimal] at this
  omega

theorem digitChar_isDigit {n : Nat} (h : n < 10) : (Nat.digitChar n).isDigit := by
  interval_cases n <;> decide

theorem natDecimalGo_digits : ∀ fuel n, n < fuel → ∀ c ∈ natDecimalGo fuel n, c.isDigit := by
  intro fuel
  induction fuel with
  | zero => intro n h; omega
  | succ f ih =>
    intro n h c hc
    by_cases h10 : n < 10
    · simp only [natDecimalGo, if_pos h10, List.mem_singleton] at hc
      subst hc; exact digitChar_isDigit h10
    · simp only [natDecimalGo, if_neg h10, List.mem_append, List.mem_singleton] at hc
      rcases hc with hc | hc
      · have hdiv : n / 10 < f := by
          have := Nat.div_lt_self (by omega : 0 < n) (by omega : 1 < 10)
          omega
        exact ih (n / 10) hdiv c hc
      · subst hc; exact digitChar_isDigit (Nat.mod_lt n (by omega))

theorem natDecimal_digits (n : Nat) : ∀ c ∈ natDecimal n, c.isDigit :=
  natDecimalGo_digits (n + 1) n (Nat.lt_succ_self n)

theorem natDecimalGo_ne_nil : ∀ fuel n, n < fuel → natDecimalGo fuel n ≠ [] := by
  intro fuel n h
  cases fuel with
  | zero => omega
  | succ f =>
    by_cases h10 : n < 10 <;> simp [natDecimalGo, h10]

theorem natDecimal_ne_nil (n : Nat) : natDecimal n ≠ [] :=
  natDecimalGo_ne_nil (n + 1) n (Nat.lt_succ_self n)

/-! ## Split, join and trim on character lists -/

/-- Model of the JS String split method with a single-character separator. -/
def splitOnChar (sep : Char) : List Char → List (List Char)
  | [] => [[]]
  | c :: rest =>
    match splitOnChar sep rest with
    | [] => [[]]
    | l :: ls => if c = sep then [] :: l :: ls else (c :: l) :: ls

/-- Model of the JS Array join method with a single-character separator. -/
def joinWith (sep : Char) : List (List Char) → List Char
  | [] => []
  | [p] => p
  | p :: ps => p ++ sep :: joinWith sep ps

theorem splitOnChar_ne_nil (sep : Char) : ∀ s, splitOnChar sep s ≠ [] := by
  intro s
  cases s with
  | nil => simp [splitOnChar]
  | cons c rest =>
    simp only [splitOnChar]
    cases splitOnChar sep rest with
    | nil => simp
    | cons l ls => by_cases h : c = sep <;> simp [h]

theorem splitOnChar_no_sep {sep : Char} {p : List Char} (h : sep ∉ p) :
    splitOnChar sep p = [p] := by
  induction p with
  | nil => rfl
  | cons c rest ih =>
    have hc : c ≠ sep := fun hh => h (hh ▸ List.mem_cons_self c rest)
    have hrest : sep ∉ rest := fun hh => h (List.mem_cons_of_mem c hh)
    simp only [splitOnChar, ih hrest]
    simp [hc]

theorem splitOnChar_append_sep {sep : Char} {p rest : List Char} (h : sep ∉ p) :
    splitOnChar sep (p ++ sep :: rest) = p :: splitOnChar sep rest := by
  induction p with
  | nil =>
    simp only [List.nil_append, splitOnChar]
    have := splitOnChar_ne_nil sep rest
    cases hs : splitOnChar sep rest with
    | nil => exact absurd hs this
    | cons l ls => simp
  | cons c p2 ih =>
    have hc : c ≠ sep := fun hh => h (hh ▸ List.mem_cons_self c p2)
    have hp2 : sep ∉ p2 := fun hh => h (List.mem_cons_of_mem c hh)
    simp only [List.cons_append, splitOnChar, List.append_eq]
    rw [ih hp2]
    simp [hc]

theorem splitOnChar_joinWith {sep : Char} :
    ∀ ps : List (List Char), ps ≠ [] → (∀ p ∈ ps, sep ∉ p) →
      splitOnChar sep (joinWith sep ps) = ps := by
  intro ps
  induction ps with
  | nil => intro h; exact absurd rfl h
  | cons p rest ih =>
    intro _ hall
    cases rest with
    | nil =>
      simp only [joinWith]
      exact splitOnChar_no_sep (hall p (List.mem_cons_self p []))
    | cons q qs =>
      have hjoin : joinWith sep (p :: q :: qs) = p ++ sep :: joinWith sep (q :: qs) := rfl
      rw [hjoin, splitOnChar_append_sep (hall p (List.mem_cons_self p (q :: qs)))]
      rw [ih (by simp) (fun x hx => hall x (List.mem_cons_of_mem p hx))]

/-- Whitespace characters recognised by JS String trim, restricted to the
    ASCII range plus no-break space; the transport format never emits any
    of the further Unicode space characters. -/
def isJsSpace (c : Char) : Bool :=
  c = ' ' || c = '\t' || c = '\n' || c = '\r' || c = '\x0b' || c = '\x0c'

/-- Model of the JS String trim method. -/
def trimChars (s : List Char) : List Char :=
  ((s.dropWhile isJsSpace).reverse.dropWhile isJsSpace).reverse

theorem dropWhile_eq_self_of_all {p : Char → Bool} :
    ∀ {s : List Char}, (∀ c ∈ s, ¬ p c) → s.dropWhile p = s := by
  intro s h
  cases s with
  | nil => rfl
  | cons c rest =>
    have : ¬ p c := h c (List.mem_cons_self c rest)
    simp [List.dropWhile, this]

theorem trimChars_eq_self {s : List Char} (h : ∀ c ∈ s, ¬ isJsSpace c) :
    trimChars s = s := by
  unfold trimChars
  rw [dropWhile_eq_self_of_all h]
  rw [dropWhile_eq_self_of_all (fun c hc => h c (List.mem_reverse.mp hc))]
  exact List.reverse_reverse s

/-! ## Base64 codec, embedding src/src/lib/base64.ts

The btoa and atob runtime primitives are modelled as standard base64 with
mandatory canonical padding; bytesToBase64 and base64ToBytes compose the
byte/char conversions with them exactly as the source does. -/

/-- The standard base64 alphabet. -/
def base64Chars : List Char :=
  ("ABCDEFGHIJKLMNOPQRSTUVWXYZabcdefghijklmnopqrstuvwxyz0123456789+/").toList

/-- Character for a 6-bit group. -/
def b64Char (n : Nat) : Char := base64Chars.getD n 'A'

/-- Value of a base64 character, none when the character is not in the
    alphabet (atob throws there). -/
def b64Val (c : Char) : Option Nat := base64Chars.indexOf? c

/-- Embedding of bytesToBase64 (base64.ts line 1), composed with the btoa
    model: three input bytes become four output characters, with canonical
    trailing padding. -/
def bytesToBase64 : Bytes → List Char
  | [] => []
  | [a] => [b64Char (a / 4), b64Char (a % 4 * 16), '=', '=']
  | [a, b] => [b64Char (a / 4), b64Char (a % 4 * 16 + b / 16), b64Char (b % 16 * 4), '=']
  | a :: b :: c :: rest =>
    b64Char (a / 4) :: b64Char (a % 4 * 16 + b / 16) :: b64Char (b % 16 * 4 + c / 64) ::
      b64Char (c % 64) :: bytesToBase64 rest

/-- Embedding of base64ToBytes (base64.ts line 9), composed with the atob
    model: four characters at a time, padding accepted only at the very
    end, unknown characters rejected. -/
def base64ToBytes : List Char → Option Bytes
  | [] => some []
  | w :: x :: y :: z :: rest =>
    match b64Val w, b64Val x with
    | some v1, some v2 =>
      if y = '=' then
        if z = '=' then
          if rest = [] then some [v1 * 4 + v2 / 16] else none
        else none
      else
        match b64Val y with
        | some v3 =>
          if z = '=' then
            if rest = [] then some [v1 * 4 + v2 / 16, v2 % 16 * 16 + v3 / 4] else none
          else
            match b64Val z with
            | some v4 =>
              (base64ToBytes rest).map
                (fun bs => (v1 * 4 + v2 / 16) :: (v2 % 16 * 16 + v3 / 4) :: (v3 % 4 * 64 + v4) :: bs)
            | none => none
        | none => none
    | _, _ => none
  | _ => none

theorem b64Val_b64Char : ∀ n, n < 64 → b64Val (b64Char n) = some n := by decide

theorem b64Char_ne_pad : ∀ n, n < 64 → b64Char n ≠ '=' := by decide

theorem base64ToBytes_bytesToBase64 :
    ∀ bs : Bytes, (∀ b ∈ bs, b < 256) → base64ToBytes (bytesToBase64 bs) = some bs
  | [], _ => rfl
  | [a], h => by
    have ha : a < 256 := h a (by simp)
    have h1 : a / 4 < 64 := by omega
    have h2 : a % 4 * 16 < 64 := by omega
    simp only [bytesToBase64, base64ToBytes, b64Val_b64Char _ h1, b64Val_b64Char _ h2,
      reduceIte]
    have e1 : a / 4 * 4 + a % 4 * 16 / 16 = a := by omega
    rw [e1]
  | [a, b], h => by
    have ha : a < 256 := h a (by simp)
    have hb : b < 256 := h b (by simp)
    have h1 : a / 4 < 64 := by omega
    have h2 : a % 4 * 16 + b / 16 < 64 := by omega
    have h3 : b % 16 * 4 < 64 := by omega
    simp only [bytesToBase64, base64ToBytes, b64Val_b64Char _ h1, b64Val_b64Char _ h2,
      if_neg (b64Char_ne_pad _ h3), b64Val_b64Char _ h3, reduceIte]
    have e1 : a / 4 * 4 + (a % 4 * 16 + b / 16) / 16 = a := by omega
    have e2 : (a % 4 * 16 + b / 16) % 16 * 16 + b % 16 * 4 / 4 = b := by omega
    rw [e1, e2]
  | a :: b :: c :: rest, h => by
    have ha : a < 256 := h a (by simp)
    have hb : b < 256 := h b (by simp)
    have hc : c < 256 := h c (by simp)
    have hrest : ∀ x ∈ rest, x < 256 := fun x hx => h x (by simp [hx])
    have h1 : a / 4 < 64 := by omega
    have h2 : a % 4 * 16 + b / 16 < 64 := by omega
    have h3 : b % 16 * 4 + c / 64 < 64 := by omega
    have h4 : c % 64 < 64 := by omega
    simp only [bytesToBase64, base64ToBytes, b64Val_b64Char _ h1, b64Val_b64Char _ h2,
      if_neg (b64Char_ne_pad _ h3), b64Val_b64Char _ h3,
      if_neg (b64Char_ne_pad _ h4), b64Val_b64Char _ h4]
    rw [base64ToBytes_bytesToBase64 rest hrest]
    have e1 : a / 4 * 4 + (a % 4 * 16 + b / 16) / 16 = a := by omega
    have e2 : (a % 4 * 16 + b / 16) % 16 * 16 + (b % 16 * 4 + c / 64) / 4 = b := by omega
    have e3 : (b % 16 * 4 + c / 64) % 4 * 64 + c % 64 = c := by omega
    simp only [Option.map_some, e1, e2, e3]
    rfl

/-- Substitution performed by bytesToBase64Url (base64.ts line 18). -/
def b64UrlSubst (c : Char) : Char :=
  if c = '+' then '-' else if c = '/' then '_' else c

/-- Substitution performed by base64UrlToBytes (base64.ts line 25). -/
def b64UrlUnsubst (c : Char) : Char :=
  if c = '-' then '+' else if c = '_' then '/' else c

/-- Removal of the trailing padding run, the model of replace(/=+$/u, ""). -/
def dropTrailingEq (s : List Char) : List Char :=
  (s.reverse.dropWhile (fun c => c = '=')).reverse

/-- Model of padEnd(ceil(length / 4) * 4, "="). -/
def padToMultipleOf4 (s : List Char) : List Char :=
  s ++ List.replicate ((s.length + 3) / 4 * 4 - s.length) '='

/-- Embedding of bytesToBase64Url (base64.ts line 18). -/
def bytesToBase64Url (bs : Bytes) : List Char :=
  dropTrailingEq ((bytesToBase64 bs).map b64UrlSubst)

/-- Embedding of base64UrlToBytes (base64.ts line 25). -/
def base64UrlToBytes (s : List Char) : Option Bytes :=
  base64ToBytes (padToMultipleOf4 (s.map b64UrlUnsubst))

theorem b64UrlUnsubst_b64UrlSubst :
    ∀ n, n < 64 → b64UrlUnsubst (b64UrlSubst (b64Char n)) = b64Char n := by decide

theorem b64UrlSubst_ne_pad : ∀ n, n < 64 → b64UrlSubst (b64Char n) ≠ '=' := by decide

/-- Shape of standard base64 output: an alphabet body followed by at most
    two padding characters, the total a multiple of four. -/
theorem bytesToBase64_shape :
    ∀ bs : Bytes, (∀ b ∈ bs, b < 256) →
      ∃ body pad, bytesToBase64 bs = body ++ List.replicate pad '=' ∧ pad ≤ 2 ∧
        (body.length + pad) % 4 = 0 ∧ ∀ c ∈ body, ∃ n, n < 64 ∧ c = b64Char n
  | [], _ => ⟨[], 0, rfl, by omega, by simp, by simp⟩
  | [a], h => by
    have ha : a < 256 := h a (by simp)
    refine ⟨[b64Char (a / 4), b64Char (a % 4 * 16)], 2, rfl, by omega, by simp, ?_⟩
    intro c hc
    simp only [List.mem_cons, List.not_mem_nil, or_false] at hc
    rcases hc with hc | hc
    · exact ⟨a / 4, by omega, hc⟩
    · exact ⟨a % 4 * 16, by omega, hc⟩
  | [a, b], h => by
    have ha : a < 256 := h a (by simp)
    have hb : b < 256 := h b (by simp)
    refine ⟨[b64Char (a / 4), b64Char (a % 4 * 16 + b / 16), b64Char (b % 16 * 4)], 1,
      rfl, by omega, by simp, ?_⟩
    intro c hc
    simp only [List.mem_cons, List.not_mem_nil, or_false] at hc
    rcases hc with hc | hc | hc
    · exact ⟨a / 4, by omega, hc⟩
    · exact ⟨a % 4 * 16 + b / 16, by omega, hc⟩
    · exact ⟨b % 16 * 4, by omega, hc⟩
  | a :: b :: c :: rest, h => by
    have ha : a < 256 := h a (by simp)
    have hb : b < 256 := h b (by simp)
    have hc : c < 256 := h c (by simp)
    have hrest : ∀ x ∈ rest, x < 256 := fun x hx => h x (by simp [hx])
    obtain ⟨body, pad, heq, hpad, hlen, hmem⟩ := bytesToBase64_shape rest hrest
    refine ⟨b64Char (a / 4) :: b64Char (a % 4 * 16 + b / 16) ::
      b64Char (b % 16 * 4 + c / 64) :: b64Char (c % 64) :: body, pad, ?_, hpad, ?_, ?_⟩
    · simp [bytesToBase64, heq]
    · simp only [List.length_cons]
      omega
    · intro x hx
      simp only [List.mem_cons] at hx
      rcases hx with hx | hx | hx | hx | hx
      · exact ⟨a / 4, by omega, hx⟩
      · exact ⟨a % 4 * 16 + b / 16, by omega, hx⟩
      · exact ⟨b % 16 * 4 + c / 64, by omega, hx⟩
      · exact ⟨c % 64, by omega, hx⟩
      · exact hmem x hx

theorem dropWhile_replicate_append (k : Nat) (r : List Char) :
    (List.replicate k '=' ++ r).dropWhile (fun c => c = '=') =
      r.dropWhile (fun c => c = '=') := by
  induction k with
  | zero => simp
  | succ n ih => simp [List.replicate_succ, List.dropWhile, ih]

theorem dropTrailingEq_append_replicate {t : List Char} (k : Nat)
    (h : ∀ c ∈ t, c ≠ '=') : dropTrailingEq (t ++ List.replicate k '=') = t := by
  unfold dropTrailingEq
  rw [List.reverse_append, List.reverse_replicate, dropWhile_replicate_append]
  rw [dropWhile_eq_self_of_all ?hh, List.reverse_reverse]
  case hh =>
    intro c hcmem
    have := h c (List.mem_reverse.mp hcmem)
    simp [this]

/-- The url-safe encoder and decoder of base64.ts round-trip on every byte
    string whose entries are bytes. -/
theorem base64UrlToBytes_bytesToBase64Url (bs : Bytes) (h : ∀ b ∈ bs, b < 256) :
    base64UrlToBytes (bytesToBase64Url bs) = some bs := by
  obtain ⟨body, pad, heq, hpad, hlen, hmem⟩ := bytesToBase64_shape bs h
  have hmapeq : (bytesToBase64 bs).map b64UrlSubst =
      body.map b64UrlSubst ++ List.replicate pad '=' := by
    rw [heq, List.map_append, List.map_replicate]
    rfl
  have hbodyne : ∀ c ∈ body.map b64UrlSubst, c ≠ '=' := by
    intro c hcmem
    obtain ⟨x, hx, hxc⟩ := List.mem_map.mp hcmem
    obtain ⟨n, hn, hxn⟩ := hmem x hx
    rw [← hxc, hxn]
    exact b64UrlSubst_ne_pad n hn
  have hurl : bytesToBase64Url bs = body.map b64UrlSubst := by
    unfold bytesToBase64Url
    rw [hmapeq, dropTrailingEq_append_replicate pad hbodyne]
  have hunsub : (body.map b64UrlSubst).map b64UrlUnsubst = body := by
    rw [List.map_map]
    conv_rhs => rw [← List.map_id body]
    apply List.map_congr_left
    intro x hx
    obtain ⟨n, hn, hxn⟩ := hmem x hx
    simp [Function.comp, hxn, b64UrlUnsubst_b64UrlSubst n hn]
  unfold base64UrlToBytes
  rw [hurl, hunsub]
  have hlen4 : (body.length + 3) / 4 * 4 - body.length = pad := by omega
  unfold padToMultipleOf4
  rw [hlen4, ← heq]
  exact base64ToBytes_bytesToBase64 bs h

/-! ## Quality controller, embedding src/unnamed/part_003 -/

/-- The four quality states of the controller. -/
inductive QualityState
  | HD_1080
  | HD_720
  | SD_480
  | RECOVERING
deriving DecidableEq

/-- The ordered ladder of active states (part_003 line 7). -/
def QUALITY_STEPS : List QualityState := [.HD_1080, .HD_720, .SD_480]

/-- Telemetry sample fed to evaluate; JS numbers modelled as rationals. -/
structure QualitySnapshot where
  rttMs : ℚ
  jitterMs : ℚ
  packetLossPct : ℚ

/-- Decision returned by the controller methods. -/
structure QualityDecision where
  nextState : QualityState
  changed : Bool
deriving DecidableEq

/-- Private state of a QualityController instance. -/
structure QCState where
  qualityState : QualityState
  stableSampleCount : Nat
deriving DecidableEq

/-- Freshly constructed controller (part_003 lines 21 and 23). -/
def initialQCState : QCState := ⟨.HD_1080, 0⟩

/-- Model of QUALITY_STEPS.indexOf, which returns -1 when absent. -/
def qualityIndexOf (s : QualityState) : Int :=
  match QUALITY_STEPS.indexOf? s with
  | some i => (i : Int)
  | none => -1

/-- The badNetwork test of evaluate (part_003 line 30). -/
def badNetwork (snap : QualitySnapshot) : Prop :=
  snap.packetLossPct ≥ 5 ∨ snap.rttMs ≥ 220 ∨ snap.jitterMs ≥ 30

/-- The goodNetwork test of evaluate (part_003 line 45). -/
def goodNetwork (snap : QualitySnapshot) : Prop :=
  snap.packetLossPct ≤ 2 ∧ snap.rttMs ≤ 130 ∧ snap.jitterMs ≤ 16

instance (snap : QualitySnapshot) : Decidable (badNetwork snap) := by
  unfold badNetwork; infer_instance

instance (snap : QualitySnapshot) : Decidable (goodNetwork snap) := by
  unfold goodNetwork; infer_instance

/-- Embedding of QualityController.evaluate (part_003 line 29); the state
    mutation is made explicit by returning the updated state next to the
    decision. -/
def evaluate (st : QCState) (snap : QualitySnapshot) : QCState × QualityDecision :=
  if badNetwork snap then
    let currentIndex := qualityIndexOf st.qualityState
    if currentIndex < (QUALITY_STEPS.length : Int) - 1 then
      let next := QUALITY_STEPS.getD (currentIndex + 1).toNat .HD_1080
      (⟨next, 0⟩, ⟨next, true⟩)
    else
      (⟨st.qualityState, 0⟩, ⟨st.qualityState, false⟩)
  else if ¬ goodNetwork snap then
    (⟨st.qualityState, 0⟩, ⟨st.qualityState, false⟩)
  else
    let cnt := st.stableSampleCount + 1
    if cnt < 8 then
      (⟨st.qualityState, cnt⟩, ⟨st.qualityState, false⟩)
    else
      let currentIndex := qualityIndexOf st.qualityState
      if currentIndex > 0 then
        (⟨.RECOVERING, 0⟩, ⟨.RECOVERING, true⟩)
      else
        (⟨st.qualityState, 0⟩, ⟨st.qualityState, false⟩)

/-- Embedding of QualityController.completeRecovery (part_003 line 70).
    Note that the source returns the HD_1080 decision without assigning
    this.qualityState, so the stored state is returned unchanged. -/
def completeRecovery (st : QCState) : QCState × QualityDecision :=
  if st.qualityState ≠ QualityState.RECOVERING then
    (st, ⟨st.qualityState, false⟩)
  else
    (st, ⟨.HD_1080, true⟩)

/-- Embedding of QualityController.forceState (part_003 line 78). -/
def forceState (st : QCState) (s : QualityState) : QCState × QualityDecision :=
  (⟨s, 0⟩, ⟨s, decide (st.qualityState ≠ s)⟩)

/-- Folding evaluate over a sample sequence, keeping the internal state. -/
def runEvaluate (st : QCState) (ss : List QualitySnapshot) : QCState :=
  ss.foldl (fun acc snap => (evaluate acc snap).1) st

/-- One rung down the ladder, the statement-side description of the bad
    sample step; SD_480 stays put. -/
def stepDown : QualityState → QualityState
  | .HD_1080 => .HD_720
  | .HD_720 => .SD_480
  | .SD_480 => .SD_480
  | .RECOVERING => .HD_1080

theorem evaluate_bad {st : QCState} {snap : QualitySnapshot}
    (hs : st.qualityState ∈ QUALITY_STEPS) (hb : badNetwork snap) :
    evaluate st snap =
      (⟨stepDown st.qualityState, 0⟩,
       ⟨stepDown st.qualityState, decide (st.qualityState ≠ .SD_480)⟩) := by
  obtain ⟨q, c⟩ := st
  simp only [evaluate, if_pos hb]
  fin_cases hs <;> simp [qualityIndexOf, QUALITY_STEPS, stepDown, List.indexOf?]

theorem evaluate_neutral {st : QCState} {snap : QualitySnapshot}
    (hb : ¬ badNetwork snap) (hg : ¬ goodNetwork snap) :
    evaluate st snap = (⟨st.qualityState, 0⟩, ⟨st.qualityState, false⟩) := by
  simp [evaluate, hb, hg]

/-- Code-path analysis of a step that reports a change to RECOVERING. -/
theorem evaluate_recovering_inversion {st : QCState} {snap : QualitySnapshot}
    (h : (evaluate st snap).2 = ⟨.RECOVERING, true⟩) :
    goodNetwork snap ∧ st.stableSampleCount + 1 ≥ 8 ∧
      st.qualityState ≠ .HD_1080 ∧ st.qualityState ≠ .RECOVERING := by
  by_cases hb : badNetwork snap
  · exfalso
    obtain ⟨q, c⟩ := st
    simp only [evaluate, if_pos hb] at h
    cases q <;> simp [qualityIndexOf, QUALITY_STEPS, List.indexOf?] at h
  by_cases hg : goodNetwork snap
  · simp only [evaluate, if_neg hb, if_pos (by simpa using hg), hg, not_true] at h
    by_cases h8 : st.stableSampleCount + 1 < 8
    · simp [if_pos h8] at h
    simp only [if_neg h8] at h
    by_cases hidx : qualityIndexOf st.qualityState > 0
    · refine ⟨hg, by omega, ?_, ?_⟩ <;>
        · obtain ⟨q, c⟩ := st
          cases q <;> simp_all [qualityIndexOf, QUALITY_STEPS, List.indexOf?]
    · simp [if_neg hidx] at h
  · simp [evaluate, hb, hg] at h

/-- New counter after a step: either reset, or incremented on a good sample. -/
theorem evaluate_counter {st : QCState} {snap : QualitySnapshot} :
    (evaluate st snap).1.stableSampleCount = 0 ∨
      ((evaluate st snap).1.stableSampleCount = st.stableSampleCount + 1 ∧
        goodNetwork snap) := by
  by_cases hb : badNetwork snap
  · obtain ⟨q, c⟩ := st
    simp only [evaluate, if_pos hb]
    cases q <;> simp [qualityIndexOf, QUALITY_STEPS, List.indexOf?]
  by_cases hg : goodNetwork snap
  · simp only [evaluate, if_neg hb, if_pos (by simpa using hg), hg]
    by_cases h8 : st.stableSampleCount + 1 < 8
    · simp [if_pos h8, hg]
    · simp only [if_neg h8]
      by_cases hidx : qualityIndexOf st.qualityState > 0 <;> simp [hidx]
  · simp [evaluate, hb, hg]

/-- The stable counter never exceeds the number of trailing good samples. -/
theorem runEvaluate_counter_invariant (s0 : QCState) (h0 : s0.stableSampleCount = 0) :
    ∀ ss : List QualitySnapshot,
      (runEvaluate s0 ss).stableSampleCount ≤ ss.length ∧
        ∀ y ∈ ss.reverse.take (runEvaluate s0 ss).stableSampleCount, goodNetwork y := by
  intro ss
  induction ss using List.list_reverse_induction with
  | base => simp [runEvaluate, h0]
  | ind ss x ih =>
    have hrun : runEvaluate s0 (ss ++ [x]) = (evaluate (runEvaluate s0 ss) x).1 := by
      simp [runEvaluate, List.foldl_append]
    rcases @evaluate_counter (runEvaluate s0 ss) x with hc | ⟨hc, hgood⟩
    · rw [hrun, hc]
      simp
    · rw [hrun, hc]
      constructor
      · simp only [List.length_append, List.length_cons, List.length_nil]
        omega
      · intro y hy
        rw [List.reverse_append] at hy
        simp only [List.reverse_cons, List.reverse_nil, List.nil_append,
          List.singleton_append, List.take_succ_cons, List.mem_cons] at hy
        rcases hy with hy | hy
        · exact hy ▸ hgood
        · exact ih.2 y hy

theorem recovering_trailing_good {s : QualityState}
    {ss : List QualitySnapshot} {snap : QualitySnapshot}
    (h : (evaluate (runEvaluate ⟨s, 0⟩ ss) snap).2 = ⟨.RECOVERING, true⟩) :
    goodNetwork snap ∧ ss.length ≥ 7 ∧ (∀ y ∈ ss.reverse.take 7, goodNetwork y) ∧
      (runEvaluate ⟨s, 0⟩ ss).qualityState ≠ .HD_1080 := by
  obtain ⟨hg, h8, hq, -⟩ := evaluate_recovering_inversion h
  obtain ⟨hlen, htrail⟩ := runEvaluate_counter_invariant ⟨s, 0⟩ rfl ss
  have hc7 : 7 ≤ (runEvaluate ⟨s, 0⟩ ss).stableSampleCount := by omega
  refine ⟨hg, by omega, ?_, hq⟩
  intro y hy
  apply htrail y
  have heq : ss.reverse.take 7 =
      (ss.reverse.take (runEvaluate ⟨s, 0⟩ ss).stableSampleCount).take 7 := by
    rw [List.take_take]
    congr 1
    omega
  rw [heq] at hy
  exact List.mem_of_mem_take hy

/-- C5: starting from any active state, a bad sample resets the counter and
    steps the quality state down exactly one rung of the ladder, a no-op at
    SD_480 reported as unchanged; a sample that is neither good nor bad
    resets the counter and leaves the state unchanged; and a change to
    RECOVERING is only ever reported on a good sample, after at least seven
    earlier consecutive good samples, from a state other than HD_1080. -/
theorem claim_C5_quality_ladder (s : QualityState) (hs : s ∈ QUALITY_STEPS) :
    (∀ (c : Nat) (snap : QualitySnapshot), badNetwork snap →
      evaluate ⟨s, c⟩ snap =
        (⟨stepDown s, 0⟩, ⟨stepDown s, decide (s ≠ .SD_480)⟩)) ∧
    (∀ (c : Nat) (snap : QualitySnapshot), ¬ badNetwork snap → ¬ goodNetwork snap →
      evaluate ⟨s, c⟩ snap = (⟨s, 0⟩, ⟨s, false⟩)) ∧
    (∀ (ss : List QualitySnapshot) (snap : QualitySnapshot),
      (evaluate (runEvaluate ⟨s, 0⟩ ss) snap).2 = ⟨.RECOVERING, true⟩ →
      goodNetwork snap ∧ ss.length ≥ 7 ∧ (∀ y ∈ ss.reverse.take 7, goodNetwork y) ∧
        (runEvaluate ⟨s, 0⟩ ss).qualityState ≠ .HD_1080) := by
  refine ⟨?_, ?_, ?_⟩
  · intro c snap hb
    exact @evaluate_bad ⟨s, c⟩ snap hs hb
  · intro c snap hb hg
    exact @evaluate_neutral ⟨s, c⟩ snap hb hg
  · intro ss snap h
    exact recovering_trailing_good h

/-- Witness for claim C5 at concrete inputs: a bad sample at HD_1080 steps
    exactly to HD_720, a neutral sample leaves HD_720 in place, and a run of
    seven good samples has the length the recovery clause asserts. -/
theorem claim_C5_witness :
    evaluate ⟨.HD_1080, 3⟩ ⟨260, 35, 8⟩ = (⟨.HD_720, 0⟩, ⟨.HD_720, true⟩) ∧
    evaluate ⟨.HD_720, 5⟩ ⟨150, 5, 1⟩ = (⟨.HD_720, 0⟩, ⟨.HD_720, false⟩) ∧
    (List.replicate 7 (QualitySnapshot.mk 70 5 1)).length ≥ 7 := by
  have h1 := claim_C5_quality_ladder .HD_1080 (by decide)
  have h2 := claim_C5_quality_ladder .HD_720 (by decide)
  refine ⟨?_, ?_, ?_⟩
  · have := h1.1 3 ⟨260, 35, 8⟩ (by decide)
    simpa using this
  · have := h2.2.1 5 ⟨150, 5, 1⟩ (by decide) (by decide)
    simpa using this
  · exact (h2.2.2 (List.replicate 7 ⟨70, 5, 1⟩) ⟨70, 5, 1⟩ (by decide)).2.1

/-- C6 as amended: completeRecovery never changes the stored controller
    state; from RECOVERING it reports a change whose next state is HD_1080,
    and from any other state it reports no change. -/
theorem claim_C6_complete_recovery (st : QCState) :
    (completeRecovery st).1 = st ∧
    (st.qualityState = .RECOVERING → (completeRecovery st).2 = ⟨.HD_1080, true⟩) ∧
    (st.qualityState ≠ .RECOVERING → (completeRecovery st).2 = ⟨st.qualityState, false⟩) := by
  unfold completeRecovery
  by_cases h : st.qualityState = QualityState.RECOVERING <;> simp [h]

/-- Counterexample to claim C6 as stated: after forcing the controller into
    RECOVERING, completeRecovery reports the change to HD_1080 but the state
    getter still returns RECOVERING, not HD_1080. -/
theorem claim_C6_counterexample :
    (completeRecovery (forceState initialQCState .RECOVERING).1).1.qualityState
        = .RECOVERING ∧
    (completeRecovery (forceState initialQCState .RECOVERING).1).2 = ⟨.HD_1080, true⟩ ∧
    QualityState.RECOVERING ≠ QualityState.HD_1080 := by decide

/-- Witness for claim C6 at concrete states. -/
theorem claim_C6_witness :
    (completeRecovery ⟨.RECOVERING, 0⟩).1 = (⟨.RECOVERING, 0⟩ : QCState) ∧
    (completeRecovery ⟨.RECOVERING, 0⟩).2 = ⟨.HD_1080, true⟩ ∧
    (completeRecovery ⟨.SD_480, 2⟩).2 = ⟨.SD_480, false⟩ := by
  obtain ⟨h1, h2, -⟩ := claim_C6_complete_recovery ⟨.RECOVERING, 0⟩
  obtain ⟨-, -, h3⟩ := claim_C6_complete_recovery ⟨.SD_480, 2⟩
  exact ⟨h1, h2 rfl, h3 (by decide)⟩

/-! ## Room store, embedding the RoomStore of src/backend/src/server.ts -/

/-- Join failure codes (ROOM_JOIN_ERROR of the backend types module). -/
inductive RoomJoinErrorCode
  | ROOM_NOT_FOUND
  | ROOM_EXPIRED
  | ROOM_FULL
  | ROLE_TAKEN
  | INVALID_ROLE
deriving DecidableEq

/-- A room record; the nullable peer id slots are Option values. -/
structure RoomRecord where
  roomId : Str
  createdAt : Nat
  expiresAt : Nat
  hostPeerId : Option Str
  guestPeerId : Option Str
deriving DecidableEq

/-- Result of validateJoin. -/
inductive JoinResult
  | ok (room : RoomRecord)
  | failed (code : RoomJoinErrorCode)
deriving DecidableEq

/-- JS truthiness of a nullable string: null and the empty string are falsy. -/
def truthy : Option Str → Bool
  | none => false
  | some s => !s.isEmpty

/-- The rooms map of the store, modelled as a list of records keyed by
    their roomId field. -/
abbrev RoomMap := List RoomRecord

/-- Lookup in the rooms map (this.rooms.get). -/
def getRoomRec (store : RoomMap) (roomId : Str) : Option RoomRecord :=
  store.find? (fun r => decide (r.roomId = roomId))

/-- Deletion from the rooms map (this.rooms.delete). -/
def deleteRoom (store : RoomMap) (roomId : Str) : RoomMap :=
  store.filter (fun r => decide (r.roomId ≠ roomId))

/-- In-place update of one room record. -/
def updateRoom (store : RoomMap) (roomId : Str) (f : RoomRecord → RoomRecord) : RoomMap :=
  store.map (fun r => if r.roomId = roomId then f r else r)

/-- Embedding of RoomStore.createRoom (server.ts line 907).  The identifier
    is drawn from a cryptographic source in the code and the while loop
    retries until it is fresh; the embedding takes the fresh identifier as
    an argument, and the room TTL of the constructor as a parameter. -/
def createRoom (store : RoomMap) (roomId : Str) (roomTtlMs : Nat) (now : Nat) :
    RoomRecord × RoomMap :=
  let room : RoomRecord := ⟨roomId, now, now + roomTtlMs, none, none⟩
  (room, store ++ [room])

/-- Number of truthy slots of one record. -/
def participantCountOf (r : RoomRecord) : Nat :=
  (if truthy r.hostPeerId then 1 else 0) + (if truthy r.guestPeerId then 1 else 0)

/-- Embedding of RoomStore.participantCount (server.ts line 1024). -/
def participantCount (store : RoomMap) (roomId : Str) : Nat :=
  match getRoomRec store roomId with
  | none => 0
  | some r => participantCountOf r

/-- Embedding of RoomStore.validateJoin (server.ts line 940), returning the
    result next to the store (the expired branch deletes the room). -/
def validateJoin (store : RoomMap) (roomId peerId role : Str) (now : Nat) :
    JoinResult × RoomMap :=
  match getRoomRec store roomId with
  | none => (.failed .ROOM_NOT_FOUND, store)
  | some room =>
    if room.expiresAt ≤ now then
      (.failed .ROOM_EXPIRED, deleteRoom store roomId)
    else if role ≠ ("host").toList ∧ role ≠ ("guest").toList then
      (.failed .INVALID_ROLE, store)
    else if role = ("host").toList ∧ truthy room.hostPeerId ∧
        room.hostPeerId ≠ some peerId then
      (.failed .ROLE_TAKEN, store)
    else if role = ("guest").toList ∧ truthy room.guestPeerId ∧
        room.guestPeerId ≠ some peerId then
      (.failed .ROLE_TAKEN, store)
    else if 2 ≤ participantCount store roomId ∧
        ¬ (room.hostPeerId = some peerId ∨ room.guestPeerId = some peerId) then
      (.failed .ROOM_FULL, store)
    else
      (.ok room, store)

/-- Embedding of RoomStore.addParticipant (server.ts line 998). -/
def addParticipant (store : RoomMap) (roomId peerId role : Str) : RoomMap :=
  match getRoomRec store roomId with
  | none => store
  | some _ =>
    updateRoom store roomId (fun r =>
      if role = ("host").toList then { r with hostPeerId := some peerId }
      else { r with guestPeerId := some peerId })

/-- Embedding of RoomStore.removeParticipant (server.ts line 1010). -/
def removeParticipant (store : RoomMap) (roomId peerId : Str) : RoomMap :=
  match getRoomRec store roomId with
  | none => store
  | some _ =>
    updateRoom store roomId (fun r =>
      let r1 := if r.hostPeerId = some peerId then { r with hostPeerId := none } else r
      if r1.guestPeerId = some peerId then { r1 with guestPeerId := none } else r1)

/-! ## Relay credentials, embedding buildTurnCredentials of server.ts -/

/-- Broker-side relay configuration. -/
structure TurnConfig where
  urls : List Str
  sharedSecret : Str
  ttlSeconds : Nat

/-- The minted credentials. -/
structure TurnCredentials where
  urls : List Str
  username : Str
  credential : Str
  ttlSeconds : Nat
deriving DecidableEq

/-- Embedding of cleanUrls (server.ts line 1070). -/
def cleanUrls (rawUrls : List Str) : List Str :=
  (rawUrls.map trimChars).filter (fun v => !v.isEmpty)

/-- Characters kept by the peer id sanitizer. -/
def isTurnSafeChar (c : Char) : Bool := c.isAlphanum || c = '_' || c = '-'

/-- Embedding of buildTurnCredentials (server.ts line 1076); the node
    HMAC-SHA1 primitive is an explicit argument from key and message to
    digest bytes. -/
def buildTurnCredentials (hmacSha1 : Str → Str → Bytes) (config : TurnConfig)
    (peerId : Str) (now : Nat) : TurnCredentials :=
  let urls := cleanUrls config.urls
  let ttlSeconds := max 30 config.ttlSeconds
  if config.sharedSecret.isEmpty then
    ⟨urls, [], [], ttlSeconds⟩
  else
    let expiresAtSeconds := now / 1000 + ttlSeconds
    let filtered := (peerId.filter isTurnSafeChar).take 40
    let safePeer := if filtered.isEmpty then ("guest").toList else filtered
    let username := natDecimal expiresAtSeconds ++ ':' :: safePeer
    let credential := bytesToBase64 (hmacSha1 config.sharedSecret username)
    ⟨urls, username, credential, ttlSeconds⟩

theorem participantCountOf_le_two (r : RoomRecord) : participantCountOf r ≤ 2 := by
  unfold participantCountOf
  split_ifs <;> omega

/-- C7 as amended: a room never holds more than two peers (the record has
    exactly the two role slots); a successful validateJoin never hands a
    role slot owned by a different peer to the joiner (so addParticipant
    after a successful validateJoin never reassigns an owned slot without
    an intervening removeParticipant); and a third distinct peer asking to
    join a room whose two slots are both occupied is rejected with
    ROLE_TAKEN, the requested role slot being owned by another peer. -/
theorem claim_C7_room_admission (store : RoomMap) (roomId peerId role : Str) (now : Nat) :
    (∀ r : RoomRecord, participantCountOf r ≤ 2) ∧
    (∀ room, (validateJoin store roomId peerId role now).1 = .ok room →
      (role = ("host").toList → truthy room.hostPeerId → room.hostPeerId = some peerId) ∧
      (role = ("guest").toList → truthy room.guestPeerId → room.guestPeerId = some peerId) ∧
      (room.hostPeerId ≠ some peerId ∧ room.guestPeerId ≠ some peerId →
        participantCount store roomId ≤ 1)) ∧
    (∀ room, getRoomRec store roomId = some room → now < room.expiresAt →
      truthy room.hostPeerId → truthy room.guestPeerId →
      room.hostPeerId ≠ some peerId → room.guestPeerId ≠ some peerId →
      role = ("host").toList ∨ role = ("guest").toList →
      (validateJoin store roomId peerId role now).1 = .failed .ROLE_TAKEN) := by
  refine ⟨participantCountOf_le_two, ?_, ?_⟩
  · intro room hok
    unfold validateJoin at hok
    cases hfind : getRoomRec store roomId with
    | none => rw [hfind] at hok; exact absurd hok (by simp)
    | some found =>
      rw [hfind] at hok
      dsimp only at hok
      by_cases h1 : found.expiresAt ≤ now
      · rw [if_pos h1] at hok; exact absurd hok (by simp)
      rw [if_neg h1] at hok
      by_cases h2 : role ≠ ("host").toList ∧ role ≠ ("guest").toList
      · rw [if_pos h2] at hok; exact absurd hok (by simp)
      rw [if_neg h2] at hok
      by_cases h3 : role = ("host").toList ∧ truthy found.hostPeerId ∧
          found.hostPeerId ≠ some peerId
      · rw [if_pos h3] at hok; exact absurd hok (by simp)
      rw [if_neg h3] at hok
      by_cases h4 : role = ("guest").toList ∧ truthy found.guestPeerId ∧
          found.guestPeerId ≠ some peerId
      · rw [if_pos h4] at hok; exact absurd hok (by simp)
      rw [if_neg h4] at hok
      by_cases h5 : 2 ≤ participantCount store roomId ∧
          ¬ (found.hostPeerId = some peerId ∨ found.guestPeerId = some peerId)
      · rw [if_pos h5] at hok; exact absurd hok (by simp)
      rw [if_neg h5] at hok
      have hroom : found = room := by simpa using hok
      subst hroom
      push_neg at h3 h4 h5
      refine ⟨fun hr ht => h3 hr ht, fun hr ht => h4 hr ht, ?_⟩
      rintro ⟨hh, hg⟩
      by_contra hcount
      push_neg at hcount
      rcases h5 (by omega) with h | h
      · exact hh h
      · exact hg h
  · intro room hfind hnow hth htg hneh hneg hrole
    unfold validateJoin
    rw [hfind]
    dsimp only
    rw [if_neg (by omega : ¬ room.expiresAt ≤ now)]
    rcases hrole with hr | hr
    · rw [if_neg (by simp [hr])]
      rw [if_pos ⟨hr, hth, hneh⟩]
    · rw [if_neg (by simp [hr])]
      rw [if_neg ?hneq, if_pos ⟨hr, htg, hneg⟩]
      case hneq =>
        rintro ⟨hh, -⟩
        rw [hr] at hh
        exact absurd hh (by decide)

/-- Concrete room id used by the claim C7 scenario. -/
def cxRoomId : Str := ("meet-example").toList

/-- Store reached by the join protocol: create a room, admit peer-host as
    host and peer-guest as guest. -/
def cxStore : RoomMap :=
  addParticipant
    (addParticipant ((createRoom [] cxRoomId 60000 0).2) cxRoomId
      ("peer-host").toList ("host").toList)
    cxRoomId ("peer-guest").toList ("guest").toList

/-- Counterexample to claim C7 as stated: with both slots occupied by
    distinct peers through the join protocol, a third distinct peer is
    rejected with ROLE_TAKEN, not ROOM_FULL, whichever role it asks for. -/
theorem claim_C7_counterexample :
    (validateJoin ((createRoom [] cxRoomId 60000 0).2) cxRoomId
        ("peer-host").toList ("host").toList 1).1 =
      .ok ⟨cxRoomId, 0, 60000, none, none⟩ ∧
    (validateJoin cxStore cxRoomId ("peer-third").toList ("guest").toList 1).1 =
      .failed .ROLE_TAKEN ∧
    (validateJoin cxStore cxRoomId ("peer-third").toList ("host").toList 1).1 =
      .failed .ROLE_TAKEN ∧
    (validateJoin cxStore cxRoomId ("peer-third").toList ("guest").toList 1).1 ≠
      .failed .ROOM_FULL := by decide

/-- Witness for claim C7 at the concrete two-peer store. -/
theorem claim_C7_witness :
    (validateJoin cxStore cxRoomId ("peer-third").toList ("guest").toList 1).1 =
      .failed .ROLE_TAKEN ∧
    participantCount cxStore cxRoomId ≤ 2 := by
  have h := claim_C7_room_admission cxStore cxRoomId ("peer-third").toList
    ("guest").toList 1
  refine ⟨?_, ?_⟩
  · exact h.2.2 ⟨cxRoomId, 0, 60000, some ("peer-host").toList, some ("peer-guest").toList⟩
      (by decide) (by decide) (by decide) (by decide) (by decide) (by decide)
      (Or.inr rfl)
  · have hcount : participantCount cxStore cxRoomId =
        participantCountOf ⟨cxRoomId, 0, 60000, some ("peer-host").toList,
          some ("peer-guest").toList⟩ := by decide
    rw [hcount]
    exact h.1 _

/-- C8 as amended: with a non-empty shared secret, buildTurnCredentials
    returns the trimmed non-empty urls, ttlSeconds = max(30, configured),
    username = (floor(now/1000) + ttlSeconds) : sanitizedPeer where
    sanitizedPeer keeps at most 40 alphanumeric, underscore or hyphen
    characters of the peer id and falls back to guest when nothing is left,
    and credential = base64(HMAC-SHA1(sharedSecret, username)); with an
    empty shared secret it returns empty username and credential and the
    trimmed urls.  The function is pure, hence deterministic in its
    arguments. -/
theorem claim_C8_turn_credentials (hmacSha1 : Str → Str → Bytes) (config : TurnConfig)
    (peerId : Str) (now : Nat) :
    (config.sharedSecret ≠ [] →
      buildTurnCredentials hmacSha1 config peerId now =
        { urls := cleanUrls config.urls
          username := natDecimal (now / 1000 + max 30 config.ttlSeconds) ++ ':' ::
            (if ((peerId.filter isTurnSafeChar).take 40).isEmpty then ("guest").toList
             else (peerId.filter isTurnSafeChar).take 40)
          credential := bytesToBase64 (hmacSha1 config.sharedSecret
            (natDecimal (now / 1000 + max 30 config.ttlSeconds) ++ ':' ::
              (if ((peerId.filter isTurnSafeChar).take 40).isEmpty then ("guest").toList
               else (peerId.filter isTurnSafeChar).take 40)))
          ttlSeconds := max 30 config.ttlSeconds }) ∧
    (config.sharedSecret = [] →
      buildTurnCredentials hmacSha1 config peerId now =
        { urls := cleanUrls config.urls, username := [], credential := [],
          ttlSeconds := max 30 config.ttlSeconds }) := by
  constructor <;> intro h
  · have hne : config.sharedSecret.isEmpty = false := by
      cases hcs : config.sharedSecret with
      | nil => exact absurd hcs h
      | cons a l => rfl
    simp [buildTurnCredentials, hne]
  · simp [buildTurnCredentials, h]

/-- Fixed digest stand-in for the HMAC-SHA1 primitive in concrete runs. -/
def cxHmac : Str → Str → Bytes := fun _ _ => List.replicate 20 1

/-- Relay configuration for the concrete runs, with padded url text. -/
def cxTurnConfig : TurnConfig :=
  ⟨[(" turn:example.org ").toList], ("secret").toList, 120⟩

/-- Counterexample to claim C8 as stated: a peer id with no safe character
    sanitizes to the empty string and the code substitutes guest, so the
    username is not the sanitized peer id appended to the timestamp; and
    with an empty shared secret the urls are trimmed, not passed through. -/
theorem claim_C8_counterexample :
    (buildTurnCredentials cxHmac cxTurnConfig ("!!!").toList 5000).username =
      natDecimal 125 ++ ':' :: ("guest").toList ∧
    (("!!!").toList.filter isTurnSafeChar).take 40 = [] ∧
    (buildTurnCredentials cxHmac cxTurnConfig ("!!!").toList 5000).username ≠
      natDecimal 125 ++ ':' :: [] ∧
    (buildTurnCredentials cxHmac { cxTurnConfig with sharedSecret := [] }
        ("p").toList 5000).urls = [("turn:example.org").toList] ∧
    [("turn:example.org").toList] ≠ cxTurnConfig.urls := by decide

/-- Witness for claim C8 at concrete inputs, both with and without a
    shared secret. -/
theorem claim_C8_witness :
    buildTurnCredentials cxHmac cxTurnConfig ("alice").toList 5000 =
      { urls := [("turn:example.org").toList]
        username := natDecimal 125 ++ ':' :: ("alice").toList
        credential := bytesToBase64 (List.replicate 20 1)
        ttlSeconds := 120 } ∧
    buildTurnCredentials cxHmac { cxTurnConfig with sharedSecret := [] }
        ("alice").toList 5000 =
      { urls := [("turn:example.org").toList], username := [], credential := [],
        ttlSeconds := 120 } := by
  have h1 := (claim_C8_turn_credentials cxHmac cxTurnConfig ("alice").toList 5000).1
    (by decide)
  have h2 := (claim_C8_turn_credentials cxHmac
    { cxTurnConfig with sharedSecret := [] } ("alice").toList 5000).2 rfl
  rw [h1, h2]
  refine ⟨?_, ?_⟩ <;> decide

/-- C10: base64UrlToBytes inverts bytesToBase64Url on every byte string,
    the empty one included: the url-safe substitutions and the padding
    strip of the encoder are undone by the decoder. -/
theorem claim_C10_base64url_roundtrip (bs : Bytes) (h : ∀ b ∈ bs, b < 256) :
    base64UrlToBytes (bytesToBase64Url bs) = some bs :=
  base64UrlToBytes_bytesToBase64Url bs h

/-- Witness for claim C10 at concrete byte strings: the empty string, a
    byte whose encoding uses the plus substitution, and strings of lengths
    exercising both padding amounts. -/
theorem claim_C10_witness :
    base64UrlToBytes (bytesToBase64Url []) = some [] ∧
    base64UrlToBytes (bytesToBase64Url [251]) = some [251] ∧
    base64UrlToBytes (bytesToBase64Url [0, 255]) = some [0, 255] ∧
    base64UrlToBytes (bytesToBase64Url [62, 63, 64, 255, 254]) =
      some [62, 63, 64, 255, 254] :=
  ⟨claim_C10_base64url_roundtrip [] (by decide),
   claim_C10_base64url_roundtrip [251] (by decide),
   claim_C10_base64url_roundtrip [0, 255] (by decide),
   claim_C10_base64url_roundtrip [62, 63, 64, 255, 254] (by decide)⟩

/-! ## Authenticated encryptor, embedding src/src/lib/signalCrypto.ts

The WebCrypto AES-GCM and PBKDF2 primitives are not repository code; they
are bundled into an AeadPrimitive value passed to the embedded functions.
A key is identified by its derivation inputs: the PBKDF2 input string
passphrase:roomCode (built exactly as deriveAesKey builds it) plus the
salt, both handed to the primitive next to the nonce and the optional
additional data. -/

/-- The external authenticated-encryption primitive: encrypt and decrypt
    take key material, salt, nonce, optional additional data and data
    bytes; decrypt returns none on any authentication failure. -/
structure AeadPrimitive where
  encrypt : Str → Bytes → Bytes → Option Str → Bytes → Bytes
  decrypt : Str → Bytes → Bytes → Option Str → Bytes → Option Bytes

/-- The PBKDF2 input string built by deriveAesKey (signalCrypto.ts line
    45): passphrase, a colon, the room code. -/
def kdfKeyMaterial (passphrase roomCode : Str) : Str :=
  passphrase ++ ':' :: roomCode

/-- The encrypted blob returned by encryptJsonPayload. -/
structure EncryptedBlob where
  saltB64 : Str
  ivB64 : Str
  ciphertextB64 : Str
deriving DecidableEq

/-- Embedding of encryptJsonPayload (signalCrypto.ts line 65).  The random
    salt and nonce, drawn by getRandomValues in the code, are arguments;
    JSON.stringify plus TextEncoder is the stringifyUtf8 argument. -/
def encryptJsonPayload {P : Type} (aead : AeadPrimitive) (stringifyUtf8 : P → Bytes)
    (payload : P) (passphrase roomCode : Str) (additionalData : Option Str)
    (salt iv : Bytes) : EncryptedBlob :=
  ⟨bytesToBase64 salt, bytesToBase64 iv,
   bytesToBase64 (aead.encrypt (kdfKeyMaterial passphrase roomCode) salt iv
     additionalData (stringifyUtf8 payload))⟩

/-- Embedding of decryptJsonPayload (signalCrypto.ts line 89).  A broken
    base64 field fails in atob before the try block, so its error is not
    DECRYPTION_FAILED; only a failure of the decrypt call is mapped to the
    opaque DECRYPTION_FAILED error; the final JSON.parse failure is the
    SyntaxError of the runtime. -/
def decryptJsonPayload {P : Type} (aead : AeadPrimitive)
    (parseUtf8Json : Bytes → Option P) (blob : EncryptedBlob)
    (passphrase roomCode : Str) (additionalData : Option Str) : Except String P :=
  match base64ToBytes blob.saltB64 with
  | none => .error "InvalidCharacterError"
  | some salt =>
    match base64ToBytes blob.ivB64 with
    | none => .error "InvalidCharacterError"
    | some iv =>
      match base64ToBytes blob.ciphertextB64 with
      | none => .error "InvalidCharacterError"
      | some ciphertext =>
        match aead.decrypt (kdfKeyMaterial passphrase roomCode) salt iv
            additionalData ciphertext with
        | none => .error "DECRYPTION_FAILED"
        | some plaintext =>
          match parseUtf8Json plaintext with
          | none => .error "SyntaxError"
          | some v => .ok v

/-! ## Envelope codec, embedding the strict variant of signalPacket.ts -/

/-- Envelope type tag. -/
inductive SignalEnvelopeType
  | offer
  | answer
deriving DecidableEq

/-- Sender role tag. -/
inductive SenderRole
  | host
  | joiner
deriving DecidableEq

/-- The version 1 signal envelope (contracts.ts line 7). -/
structure SignalEnvelopeV1 where
  version : Str
  type : SignalEnvelopeType
  roomCode : Str
  createdAt : Nat
  expiresAt : Nat
  saltB64 : Str
  ivB64 : Str
  ciphertextB64 : Str
  senderRole : SenderRole
deriving DecidableEq

/-- SIGNAL_VERSION of signalPacket.ts line 15. -/
def SIGNAL_VERSION : Str := ['1']

/-- PACKET_TTL_MS of signalPacket.ts line 18. -/
def PACKET_TTL_MS : Nat := 10 * 60 * 1000

/-- MAX_PACKET_TEXT_CHARS of signalPacket.ts line 19. -/
def MAX_PACKET_TEXT_CHARS : Nat := 200000

/-- MAX_CHUNK_COUNT of signalPacket.ts line 20. -/
def MAX_CHUNK_COUNT : Nat := 256

/-- MAX_COMPRESSED_BYTES of signalPacket.ts line 21. -/
def MAX_COMPRESSED_BYTES : Nat := 120000

/-- MAX_DECOMPRESSED_CHARS of signalPacket.ts line 22. -/
def MAX_DECOMPRESSED_CHARS : Nat := 350000

/-- TRANSPORT_CHUNK_CHAR_LIMIT of signalPacket.ts line 16. -/
def TRANSPORT_CHUNK_CHAR_LIMIT : Nat := 900

/-- The P2PV1 chunk label, PACKET_PREFIX of signalPacket.ts line 17. -/
def PACKET_HEADER : Str := ("P2PV1").toList

/-- One character of the room code character class [a-zA-Z0-9_-]. -/
def isRoomCodeChar (c : Char) : Bool := c.isAlphanum || c = '_' || c = '-'

/-- Embedding of roomCodeSchema.parse (signalPacket.ts line 24): trim,
    then the anchored regex over 4 to 48 characters of the class. -/
def roomCodeParse (roomCode : Str) : Except String Str :=
  let t := trimChars roomCode
  if 4 ≤ t.length ∧ t.length ≤ 48 ∧ t.all isRoomCodeChar then .ok t
  else .error "Room code must be 4-48 letters, numbers, - or _."

/-- The JSON string of an envelope type tag. -/
def envTypeStr : SignalEnvelopeType → Str
  | .offer => ("offer").toList
  | .answer => ("answer").toList

/-- The JSON string of a sender role tag. -/
def senderRoleStr : SenderRole → Str
  | .host => ("host").toList
  | .joiner => ("joiner").toList

/-- Embedding of buildEnvelopeAdditionalData (signalPacket.ts line 70):
    the six metadata fields joined with a pipe, timestamps rendered in
    decimal by String(n). -/
def buildEnvelopeAdditionalData (version : Str) (type : SignalEnvelopeType)
    (roomCode : Str) (createdAt expiresAt : Nat) (senderRole : SenderRole) : Str :=
  version ++ '|' :: envTypeStr type ++ '|' :: roomCode ++
    '|' :: natDecimal createdAt ++ '|' :: natDecimal expiresAt ++
    '|' :: senderRoleStr senderRole

/-- The additional data recomputed from a received envelope. -/
def envelopeAdditionalData (e : SignalEnvelopeV1) : Str :=
  buildEnvelopeAdditionalData e.version e.type e.roomCode e.createdAt e.expiresAt e.senderRole

/-- Embedding of validateEnvelopeTimeWindow (signalPacket.ts line 88). -/
def validateEnvelopeTimeWindow (e : SignalEnvelopeV1) : Except String Unit :=
  if e.expiresAt ≤ e.createdAt then .error "Packet timestamps are invalid."
  else if PACKET_TTL_MS < e.expiresAt - e.createdAt then .error "Packet lifetime is invalid."
  else .ok ()

/-- Embedding of getTransportLines (signalPacket.ts line 98). -/
def getTransportLines (input : Str) : List Str :=
  ((splitOnChar '\n' input).map trimChars).filter (fun l => !l.isEmpty)

/-- A parsed transport chunk (contracts.ts line 94). -/
structure TransportChunk where
  packetId : Str
  partIndex : Nat
  partTotal : Nat
  payload : Str
deriving DecidableEq

/-- One character of the packet id character class [a-f0-9]. -/
def isHexLowerChar (c : Char) : Bool := c.isDigit || decide ('a' ≤ c ∧ c ≤ 'f')

/-- Model of JS Number() restricted to the inputs the transport uses: a
    non-empty all-digit string is its decimal value, anything else goes to
    the not-a-number branch of the caller.  The chunk index tokens the
    codec reads and writes are exactly such strings. -/
def jsNumberNat (s : Str) : Option Nat :=
  if s ≠ [] ∧ s.all Char.isDigit then some (decimalVal s) else none

/-- Embedding of parseChunkLine (signalPacket.ts line 105). -/
def parseChunkLine (line : Str) : Except String TransportChunk :=
  match splitOnChar '|' line with
  | [p0, p1, p2, p3] =>
    if p0 ≠ PACKET_HEADER then .error "Invalid packet chunk format."
    else if ¬ (p1.length = 16 ∧ p1.all isHexLowerChar) then .error "Packet ID is invalid."
    else
      match splitOnChar '/' p2 with
      | [t0, t1] =>
        match jsNumberNat t0, jsNumberNat t1 with
        | some partIndex, some partTotal =>
          if partIndex < 1 ∨ partTotal < 1 ∨ partTotal < partIndex then
            .error "Packet chunk index is out of range."
          else .ok ⟨p1, partIndex, partTotal, p3⟩
        | _, _ => .error "Packet chunk index is out of range."
      | _ => .error "Invalid packet chunk index."
  | _ => .error "Invalid packet chunk format."

/-- Embedding of serializeChunk (signalPacket.ts line 141). -/
def serializeChunk (chunk : TransportChunk) : Str :=
  PACKET_HEADER ++ '|' :: chunk.packetId ++
    '|' :: natDecimal chunk.partIndex ++ '/' :: natDecimal chunk.partTotal ++
    '|' :: chunk.payload

/-- Fuel-driven slicing into pieces of TRANSPORT_CHUNK_CHAR_LIMIT. -/
def chunksOfGo : Nat → Str → List Str
  | 0, _ => []
  | fuel + 1, payload =>
    if payload.isEmpty then []
    else payload.take TRANSPORT_CHUNK_CHAR_LIMIT ::
      chunksOfGo fuel (payload.drop TRANSPORT_CHUNK_CHAR_LIMIT)

/-- The slicing loop of splitPayloadIntoChunks (signalPacket.ts line 156). -/
def chunksOf (payload : Str) : List Str := chunksOfGo (payload.length + 1) payload

/-- Embedding of splitPayloadIntoChunks (signalPacket.ts line 150). -/
def splitPayloadIntoChunks (payload : Str) : Except String (List Str) :=
  if MAX_PACKET_TEXT_CHARS < payload.length then
    .error "Packet is too large to share safely."
  else
    let chunks := chunksOf payload
    if MAX_CHUNK_COUNT < chunks.length then .error "Packet has too many chunks."
    else .ok chunks

/-- Embedding of createSignalEnvelope (signalPacket.ts line 192).  The
    clock value now (Date.now), the random salt and nonce and the payload
    serializer are arguments. -/
def createSignalEnvelope {P : Type} (aead : AeadPrimitive) (stringifyUtf8 : P → Bytes)
    (payload : P) (passphrase roomCode : Str) (type : SignalEnvelopeType)
    (senderRole : SenderRole) (salt iv : Bytes) (now : Nat) :
    Except String SignalEnvelopeV1 :=
  match roomCodeParse roomCode with
  | .error e => .error e
  | .ok cleanRoomCode =>
    let createdAt := now
    let expiresAt := now + PACKET_TTL_MS
    let encrypted := encryptJsonPayload aead stringifyUtf8 payload passphrase cleanRoomCode
      (some (buildEnvelopeAdditionalData SIGNAL_VERSION type cleanRoomCode
        createdAt expiresAt senderRole)) salt iv
    .ok ⟨SIGNAL_VERSION, type, cleanRoomCode, createdAt, expiresAt,
      encrypted.saltB64, encrypted.ivB64, encrypted.ciphertextB64, senderRole⟩

/-- The indexed map of encodeEnvelopeForTransport: chunk number i + 1 for
    the i-th payload part, all under one packet id and part total. -/
def chunkParts (packetId : Str) (partTotal : Nat) : Nat → List Str → List TransportChunk
  | _, [] => []
  | i, p :: ps => ⟨packetId, i + 1, partTotal, p⟩ :: chunkParts packetId partTotal (i + 1) ps

/-- Embedding of encodeEnvelopeForTransport (signalPacket.ts line 230).
    The gzip primitive, the JSON stringifier composed with TextEncoder,
    and the randomly drawn packet id are arguments. -/
def encodeEnvelopeForTransport (gzip : Bytes → Bytes)
    (envelopeJsonUtf8 : SignalEnvelopeV1 → Bytes) (packetId : Str)
    (envelope : SignalEnvelopeV1) : Except String Str :=
  let encoded := bytesToBase64Url (gzip (envelopeJsonUtf8 envelope))
  match splitPayloadIntoChunks encoded with
  | .error e => .error e
  | .ok payloadParts =>
    let partTotal := payloadParts.length
    let chunks := (chunkParts packetId partTotal 0 payloadParts).map serializeChunk
    .ok (joinWith '\n' chunks)

/-- The value checks of signalEnvelopeSchema (signalPacket.ts line 42); the
    structural half (field presence and primitive types) lives in the JSON
    parsing argument.  The roomCode field is trimmed by its schema. -/
def signalEnvelopeSchemaParse (e : SignalEnvelopeV1) : Option SignalEnvelopeV1 :=
  let rc := trimChars e.roomCode
  if e.version = SIGNAL_VERSION ∧ 4 ≤ rc.length ∧ rc.length ≤ 48 ∧ rc.all isRoomCodeChar ∧
      0 < e.createdAt ∧ 0 < e.expiresAt ∧ 10 ≤ e.saltB64.length ∧
      10 ≤ e.ivB64.length ∧ 10 ≤ e.ciphertextB64.length then
    some { e with roomCode := rc }
  else none

/-- The last chunk carrying a given part index, the value the dedup map of
    decodeEnvelopeFromTransport holds for that index. -/
def lastWithIndex (chunks : List TransportChunk) (i : Nat) : Option TransportChunk :=
  chunks.reverse.find? (fun c => c.partIndex = i)

/-- Reassembly in ascending index order.  When the caller has checked that
    the chunks carry total distinct indices, each between 1 and total, the
    indices are exactly 1..total and every lookup succeeds; an index with
    no chunk contributes nothing. -/
def reassemblePayload (chunks : List TransportChunk) (total : Nat) : Str :=
  ((List.range total).map (fun i =>
    match lastWithIndex chunks (i + 1) with
    | some c => c.payload
    | none => [])).flatten

/-- Embedding of decodeEnvelopeFromTransport (signalPacket.ts line 253).
    The ungzip primitive and the JSON parse composed with TextDecoder and
    the structural half of the envelope schema are arguments. -/
def decodeEnvelopeFromTransport (ungzip : Bytes → Option Bytes)
    (envelopeParseUtf8Json : Bytes → Option SignalEnvelopeV1) (input : Str) :
    Except String SignalEnvelopeV1 :=
  if MAX_PACKET_TEXT_CHARS < input.length then .error "Packet text is too large."
  else
    let lines := getTransportLines input
    if lines.isEmpty then .error "No packet data was found."
    else if MAX_CHUNK_COUNT < lines.length then .error "Packet has too many chunks."
    else
      match lines.mapM parseChunkLine with
      | .error e => .error e
      | .ok chunks =>
        match chunks with
        | [] => .error "No packet data was found."
        | c0 :: _ =>
          if chunks.any (fun c => c.packetId ≠ c0.packetId ∨ c.partTotal ≠ c0.partTotal) then
            .error "Packet chunks do not belong together."
          else if (chunks.map (fun c => c.partIndex)).dedup.length ≠ c0.partTotal then
            .error "Packet is missing one or more chunks."
          else
            let payload := reassemblePayload chunks c0.partTotal
            match base64UrlToBytes payload with
            | none => .error "InvalidCharacterError"
            | some compressedBytes =>
              if MAX_COMPRESSED_BYTES < compressedBytes.length then
                .error "Packet payload is too large."
              else
                match ungzip compressedBytes with
                | none => .error "incorrect header check"
                | some decompressed =>
                  if MAX_DECOMPRESSED_CHARS < decompressed.length then
                    .error "Packet decompressed payload is too large."
                  else
                    match envelopeParseUtf8Json decompressed with
                    | none => .error "SyntaxError"
                    | some parsed =>
                      match signalEnvelopeSchemaParse parsed with
                      | none => .error "Invalid envelope."
                      | some envelope =>
                        match validateEnvelopeTimeWindow envelope with
                        | .error e => .error e
                        | .ok _ => .ok envelope

/-- Embedding of ensureEnvelopeUsable (signalPacket.ts line 303). -/
def ensureEnvelopeUsable (envelope : SignalEnvelopeV1) (roomCode : Str) (now : Nat) :
    Except String Str :=
  match roomCodeParse roomCode with
  | .error e => .error e
  | .ok cleanRoomCode =>
    if envelope.roomCode ≠ cleanRoomCode then
      .error "This packet does not belong to this room code."
    else
      match validateEnvelopeTimeWindow envelope with
      | .error e => .error e
      | .ok _ =>
        if envelope.expiresAt < now then .error "PACKET_EXPIRED"
        else .ok cleanRoomCode

/-- A connectivity candidate (iceCandidateSchema, signalPacket.ts line 35).
    sdpMid may be absent, null or a string, hence the nested Option. -/
structure IceCandidate where
  candidate : Str
  sdpMid : Option (Option Str)
  sdpMLineIndex : Option Nat
  usernameFragment : Option Str
deriving DecidableEq

/-- The offer payload (contracts.ts line 19). -/
structure OfferPayloadV1 where
  sessionId : Str
  sdpOffer : Str
  iceCandidates : List IceCandidate
  mediaTarget : Str
  clientInfo : Str
deriving DecidableEq

/-- The answer payload. -/
structure AnswerPayloadV1 where
  sessionId : Str
  sdpAnswer : Str
  iceCandidates : List IceCandidate
  acceptedMediaTarget : Str
  clientInfo : Str
deriving DecidableEq

/-- One character of the session id class [a-zA-Z0-9-]. -/
def isSessionIdChar (c : Char) : Bool := c.isAlphanum || c = '-'

/-- Value checks of iceCandidateSchema (signalPacket.ts line 35). -/
def iceCandidateSchemaOk (c : IceCandidate) : Bool :=
  decide (1 ≤ c.candidate.length ∧ c.candidate.length ≤ 2048) &&
  (match c.sdpMid with
   | some (some s) => decide (s.length ≤ 64)
   | _ => true) &&
  (match c.sdpMLineIndex with
   | some i => decide (i ≤ 10)
   | none => true) &&
  (match c.usernameFragment with
   | some s => decide (s.length ≤ 256)
   | none => true)

/-- Value checks of offerPayloadSchema (signalPacket.ts line 54). -/
def offerPayloadSchemaOk (p : OfferPayloadV1) : Bool :=
  decide (6 ≤ p.sessionId.length ∧ p.sessionId.length ≤ 128) &&
  p.sessionId.all isSessionIdChar &&
  decide (10 ≤ p.sdpOffer.length ∧ p.sdpOffer.length ≤ 30000) &&
  decide (p.iceCandidates.length ≤ 96) &&
  p.iceCandidates.all iceCandidateSchemaOk &&
  decide (p.mediaTarget = ("1080p30").toList) &&
  decide (2 ≤ p.clientInfo.length ∧ p.clientInfo.length ≤ 180)

/-- Value checks of answerPayloadSchema (signalPacket.ts line 62). -/
def answerPayloadSchemaOk (p : AnswerPayloadV1) : Bool :=
  decide (6 ≤ p.sessionId.length ∧ p.sessionId.length ≤ 128) &&
  p.sessionId.all isSessionIdChar &&
  decide (10 ≤ p.sdpAnswer.length ∧ p.sdpAnswer.length ≤ 30000) &&
  decide (p.iceCandidates.length ≤ 96) &&
  p.iceCandidates.all iceCandidateSchemaOk &&
  decide (p.acceptedMediaTarget = ("1080p30").toList) &&
  decide (2 ≤ p.clientInfo.length ∧ p.clientInfo.length ≤ 180)

/-- Embedding of decryptOfferEnvelope (signalPacket.ts line 318). -/
def decryptOfferEnvelope (aead : AeadPrimitive)
    (parseUtf8Json : Bytes → Option OfferPayloadV1)
    (envelope : SignalEnvelopeV1) (roomCode passphrase : Str) (now : Nat) :
    Except String OfferPayloadV1 :=
  match ensureEnvelopeUsable envelope roomCode now with
  | .error e => .error e
  | .ok cleanRoomCode =>
    if envelope.type ≠ .offer then .error "Expected an offer packet."
    else if envelope.senderRole ≠ .host then .error "Offer packet role is invalid."
    else
      match decryptJsonPayload aead parseUtf8Json
          ⟨envelope.saltB64, envelope.ivB64, envelope.ciphertextB64⟩
          passphrase cleanRoomCode (some (envelopeAdditionalData envelope)) with
      | .error e => .error e
      | .ok payload =>
        if offerPayloadSchemaOk payload then .ok payload
        else .error "Invalid offer payload."

/-- Embedding of decryptAnswerEnvelope (signalPacket.ts line 344). -/
def decryptAnswerEnvelope (aead : AeadPrimitive)
    (parseUtf8Json : Bytes → Option AnswerPayloadV1)
    (envelope : SignalEnvelopeV1) (roomCode passphrase : Str) (now : Nat) :
    Except String AnswerPayloadV1 :=
  match ensureEnvelopeUsable envelope roomCode now with
  | .error e => .error e
  | .ok cleanRoomCode =>
    if envelope.type ≠ .answer then .error "Expected an answer packet."
    else if envelope.senderRole ≠ .joiner then .error "Answer packet role is invalid."
    else
      match decryptJsonPayload aead parseUtf8Json
          ⟨envelope.saltB64, envelope.ivB64, envelope.ciphertextB64⟩
          passphrase cleanRoomCode (some (envelopeAdditionalData envelope)) with
      | .error e => .error e
      | .ok payload =>
        if answerPayloadSchemaOk payload then .ok payload
        else .error "Invalid answer payload."

/-- C3: for every envelope whose expiresAt lies strictly in the past while
    its time window is valid and its room code matches the callers, both
    decryptOfferEnvelope and decryptAnswerEnvelope fail with PACKET_EXPIRED
    for every primitive, parser and passphrase: the expiry check runs
    before any decryption is attempted, so no decrypted data is produced. -/
theorem claim_C3_packet_expired (aead : AeadPrimitive)
    (parseOffer : Bytes → Option OfferPayloadV1)
    (parseAnswer : Bytes → Option AnswerPayloadV1)
    (envelope : SignalEnvelopeV1) (roomCode passphrase : Str) (now : Nat)
    (hroom : roomCodeParse roomCode = .ok envelope.roomCode)
    (hwin : validateEnvelopeTimeWindow envelope = .ok ())
    (hexp : envelope.expiresAt < now) :
    decryptOfferEnvelope aead parseOffer envelope roomCode passphrase now =
      .error "PACKET_EXPIRED" ∧
    decryptAnswerEnvelope aead parseAnswer envelope roomCode passphrase now =
      .error "PACKET_EXPIRED" := by
  have hens : ensureEnvelopeUsable envelope roomCode now = .error "PACKET_EXPIRED" := by
    unfold ensureEnvelopeUsable
    rw [hroom]
    dsimp only
    rw [if_neg (by simp), hwin]
    dsimp only
    rw [if_pos hexp]
  constructor
  · unfold decryptOfferEnvelope
    rw [hens]
  · unfold decryptAnswerEnvelope
    rw [hens]

/-- Concrete toy primitive for closed runs: the ciphertext is the
    plaintext itself and decryption always succeeds. -/
def cxAeadId : AeadPrimitive := ⟨fun _ _ _ _ d => d, fun _ _ _ _ d => some d⟩

/-- Concrete expired envelope for the claim C3 witness. -/
def cxExpiredEnvelope : SignalEnvelopeV1 :=
  ⟨SIGNAL_VERSION, .offer, ("room-1").toList, 1000, 601000,
   ("AAAAAAAAAAAAAAAA").toList, ("AAAAAAAAAAAAAAAA").toList,
   ("AAAAAAAAAAAAAAAA").toList, .host⟩

/-- Witness for claim C3: one millisecond after expiry, with the correct
    room code, the offer decrypt fails with PACKET_EXPIRED. -/
theorem claim_C3_witness :
    decryptOfferEnvelope cxAeadId (fun _ => none) cxExpiredEnvelope
      ("room-1").toList ("pass-one").toList 601001 = .error "PACKET_EXPIRED" ∧
    decryptAnswerEnvelope cxAeadId (fun _ => none) cxExpiredEnvelope
      ("room-1").toList ("pass-one").toList 601001 = .error "PACKET_EXPIRED" :=
  claim_C3_packet_expired cxAeadId (fun _ => none) (fun _ => none)
    cxExpiredEnvelope ("room-1").toList ("pass-one").toList 601001
    (by decide) (by decide) (by decide)

theorem decode_ok_inversion (ungzip : Bytes → Option Bytes)
    (parseEnv : Bytes → Option SignalEnvelopeV1) (input : Str)
    (e : SignalEnvelopeV1)
    (h : decodeEnvelopeFromTransport ungzip parseEnv input = .ok e) :
    input.length ≤ MAX_PACKET_TEXT_CHARS ∧
    (getTransportLines input).length ≤ MAX_CHUNK_COUNT ∧
    ∃ c0 rest compressedBytes decompressed,
      (getTransportLines input).mapM parseChunkLine = .ok (c0 :: rest) ∧
      base64UrlToBytes (reassemblePayload (c0 :: rest) c0.partTotal) =
        some compressedBytes ∧
      compressedBytes.length ≤ MAX_COMPRESSED_BYTES ∧
      ungzip compressedBytes = some decompressed ∧
      decompressed.length ≤ MAX_DECOMPRESSED_CHARS := by
  unfold decodeEnvelopeFromTransport at h
  split at h
  · exact Except.noConfusion h
  · rename_i h1
    dsimp only at h
    split at h
    · exact Except.noConfusion h
    · rename_i h2
      split at h
      · exact Except.noConfusion h
      · rename_i h3
        split at h
        · exact Except.noConfusion h
        · rename_i chunks hmapm
          split at h
          · exact Except.noConfusion h
          · rename_i c0 rest
            split at h
            · exact Except.noConfusion h
            · rename_i h4
              split at h
              · exact Except.noConfusion h
              · rename_i h5
                split at h
                · exact Except.noConfusion h
                · rename_i compressedBytes hb64
                  split at h
                  · exact Except.noConfusion h
                  · rename_i h6
                    split at h
                    · exact Except.noConfusion h
                    · rename_i decompressed hungz
                      split at h
                      · exact Except.noConfusion h
                      · rename_i h7
                        split at h
                        · exact Except.noConfusion h
                        · rename_i parsed hparse
                          split at h
                          · exact Except.noConfusion h
                          · rename_i envelope hschema
                            split at h
                            · exact Except.noConfusion h
                            · refine ⟨by omega, by omega, c0, rest,
                                compressedBytes, decompressed, ?_, ?_, by omega, ?_, by omega⟩
                              · exact hmapm
                              · exact hb64
                              · exact hungz

/-- C9: decodeEnvelopeFromTransport enforces its size caps before trusting
    the input: text longer than 200000 characters is rejected with the
    exact message, more than 256 chunk lines is rejected, and a successful
    decode certifies that the reassembled compressed payload was at most
    120000 bytes and the decompressed payload at most 350000 long, so no
    envelope is ever returned for an input beyond any cap. -/
theorem claim_C9_decode_size_caps (ungzip : Bytes → Option Bytes)
    (parseEnv : Bytes → Option SignalEnvelopeV1) (input : Str) :
    (MAX_PACKET_TEXT_CHARS < input.length →
      decodeEnvelopeFromTransport ungzip parseEnv input =
        .error "Packet text is too large.") ∧
    (input.length ≤ MAX_PACKET_TEXT_CHARS →
      MAX_CHUNK_COUNT < (getTransportLines input).length →
      decodeEnvelopeFromTransport ungzip parseEnv input =
        .error "Packet has too many chunks.") ∧
    (∀ e, decodeEnvelopeFromTransport ungzip parseEnv input = .ok e →
      input.length ≤ MAX_PACKET_TEXT_CHARS ∧
      (getTransportLines input).length ≤ MAX_CHUNK_COUNT ∧
      ∃ c0 rest compressedBytes decompressed,
        (getTransportLines input).mapM parseChunkLine = .ok (c0 :: rest) ∧
        base64UrlToBytes (reassemblePayload (c0 :: rest) c0.partTotal) =
          some compressedBytes ∧
        compressedBytes.length ≤ MAX_COMPRESSED_BYTES ∧
        ungzip compressedBytes = some decompressed ∧
        decompressed.length ≤ MAX_DECOMPRESSED_CHARS) := by
  refine ⟨?_, ?_, ?_⟩
  · intro h
    unfold decodeEnvelopeFromTransport
    rw [if_pos h]
  · intro hle hgt
    unfold decodeEnvelopeFromTransport
    rw [if_neg (by omega)]
    dsimp only
    have hne : (getTransportLines input).isEmpty = false := by
      cases hcl : getTransportLines input with
      | nil => rw [hcl] at hgt; simp at hgt
      | cons a l => rfl
    rw [hne]
    simp only [Bool.false_eq_true, if_false]
    rw [if_pos hgt]
  · intro e h
    exact decode_ok_inversion ungzip parseEnv input e h

/-- Concrete envelope produced by the decode parser in closed runs. -/
def cxDecodedEnvelope : SignalEnvelopeV1 :=
  ⟨SIGNAL_VERSION, .offer, ("room-1").toList, 1000, 601000,
   ("AAAAAAAAAAAAAAAA").toList, ("AAAAAAAAAAAAAAAA").toList,
   ("AAAAAAAAAAAAAAAA").toList, .host⟩

/-- A well-formed one-chunk transport text. -/
def cxGoodInput : Str := ("P2PV1|0123456789abcdef|1/1|Qg").toList

/-- A transport text of 257 one-character lines. -/
def cxManyLinesInput : Str := joinWith '\n' (List.replicate 257 [('x' : Char)])

/-- Witness for claim C9: the 200001-character input is rejected with the
    exact message, 257 chunk lines are rejected, and a concrete successful
    decode is within every cap. -/
theorem claim_C9_witness :
    decodeEnvelopeFromTransport some (fun _ => some cxDecodedEnvelope)
        (List.replicate 200001 'a') = .error "Packet text is too large." ∧
    decodeEnvelopeFromTransport some (fun _ => some cxDecodedEnvelope)
        cxManyLinesInput = .error "Packet has too many chunks." ∧
    cxGoodInput.length ≤ MAX_PACKET_TEXT_CHARS ∧
    (getTransportLines cxGoodInput).length ≤ MAX_CHUNK_COUNT := by
  refine ⟨?_, ?_, ?_⟩
  · exact (claim_C9_decode_size_caps some (fun _ => some cxDecodedEnvelope)
      (List.replicate 200001 'a')).1 (by rw [List.length_replicate]; decide)
  · exact (claim_C9_decode_size_caps some (fun _ => some cxDecodedEnvelope)
      cxManyLinesInput).2.1 (by decide) (by decide)
  · have := (claim_C9_decode_size_caps some (fun _ => some cxDecodedEnvelope)
      cxGoodInput).2.2 cxDecodedEnvelope (by decide)
    exact ⟨this.1, this.2.1⟩

theorem roomCodeChar_not_space {c : Char} (h : isRoomCodeChar c = true) :
    isJsSpace c = false := by
  by_contra hcon
  simp only [Bool.not_eq_false] at hcon
  unfold isJsSpace at hcon
  simp only [Bool.or_eq_true, decide_eq_true_eq] at hcon
  rcases hcon with ((((h1 | h1) | h1) | h1) | h1) | h1 <;> subst h1 <;>
    exact absurd h (by decide)

/-- A clean room code parses to itself: roomCodeParse is idempotent on its
    own output. -/
theorem roomCodeParse_idem {roomCode rc : Str} (h : roomCodeParse roomCode = .ok rc) :
    roomCodeParse rc = .ok rc ∧ 4 ≤ rc.length ∧ rc.length ≤ 48 ∧
      rc.all isRoomCodeChar := by
  unfold roomCodeParse at h
  by_cases hc : 4 ≤ (trimChars roomCode).length ∧ (trimChars roomCode).length ≤ 48 ∧
      (trimChars roomCode).all isRoomCodeChar
  · rw [if_pos hc] at h
    have hrc : trimChars roomCode = rc := by
      have := h
      simp only [Except.ok.injEq] at this
      exact this
    rw [hrc] at hc
    have htrim : trimChars rc = rc := by
      apply trimChars_eq_self
      intro c hcmem
      have hall := List.all_eq_true.mp hc.2.2 c hcmem
      simp [roomCodeChar_not_space hall]
    unfold roomCodeParse
    rw [htrim, if_pos hc]
    exact ⟨rfl, hc⟩
  · rw [if_neg hc] at h
    exact Except.noConfusion h

theorem buildAD_version_inj {v v' : Str} {t : SignalEnvelopeType} {r : Str}
    {c x : Nat} {s : SenderRole}
    (h : buildEnvelopeAdditionalData v t r c x s =
      buildEnvelopeAdditionalData v' t r c x s) : v = v' := by
  have key : ∀ vv : Str, buildEnvelopeAdditionalData vv t r c x s =
      vv ++ ('|' :: envTypeStr t ++ '|' :: r ++ '|' :: natDecimal c ++
        '|' :: natDecimal x ++ '|' :: senderRoleStr s) := by
    intro vv
    simp [buildEnvelopeAdditionalData]
  rw [key v, key v'] at h
  exact List.append_cancel_right h

theorem buildAD_createdAt_inj {v : Str} {t : SignalEnvelopeType} {r : Str}
    {c c' x : Nat} {s : SenderRole}
    (h : buildEnvelopeAdditionalData v t r c x s =
      buildEnvelopeAdditionalData v t r c' x s) : c = c' := by
  have key : ∀ cc : Nat, buildEnvelopeAdditionalData v t r cc x s =
      (v ++ '|' :: envTypeStr t ++ '|' :: r ++ ['|']) ++
        (natDecimal cc ++ ('|' :: natDecimal x ++ '|' :: senderRoleStr s)) := by
    intro cc
    simp [buildEnvelopeAdditionalData]
  rw [key c, key c'] at h
  have h2 := List.append_cancel_left h
  have h3 := List.append_cancel_right h2
  exact natDecimal_injective h3

theorem buildAD_expiresAt_inj {v : Str} {t : SignalEnvelopeType} {r : Str}
    {c x x' : Nat} {s : SenderRole}
    (h : buildEnvelopeAdditionalData v t r c x s =
      buildEnvelopeAdditionalData v t r c x' s) : x = x' := by
  have key : ∀ xx : Nat, buildEnvelopeAdditionalData v t r c xx s =
      (v ++ '|' :: envTypeStr t ++ '|' :: r ++ '|' :: natDecimal c ++ ['|']) ++
        (natDecimal xx ++ ('|' :: senderRoleStr s)) := by
    intro xx
    simp [buildEnvelopeAdditionalData]
  rw [key x, key x'] at h
  have h2 := List.append_cancel_left h
  have h3 := List.append_cancel_right h2
  exact natDecimal_injective h3

/-- Shape of a created envelope (createSignalEnvelope on a valid room
    code). -/
theorem createSignalEnvelope_ok {P : Type} (aead : AeadPrimitive)
    (stringifyUtf8 : P → Bytes) (payload : P) (passphrase roomCode : Str)
    (type : SignalEnvelopeType) (senderRole : SenderRole) (salt iv : Bytes)
    (now : Nat) {rc : Str} (hrc : roomCodeParse roomCode = .ok rc) :
    createSignalEnvelope aead stringifyUtf8 payload passphrase roomCode type
        senderRole salt iv now =
      .ok ⟨SIGNAL_VERSION, type, rc, now, now + PACKET_TTL_MS,
        bytesToBase64 salt, bytesToBase64 iv,
        bytesToBase64 (aead.encrypt (kdfKeyMaterial passphrase rc) salt iv
          (some (buildEnvelopeAdditionalData SIGNAL_VERSION type rc now
            (now + PACKET_TTL_MS) senderRole)) (stringifyUtf8 payload)),
        senderRole⟩ := by
  unfold createSignalEnvelope
  rw [hrc]
  rfl

/-- Reduction of decryptJsonPayload on a blob built by encryptJsonPayload
    with byte-valued salt, nonce and ciphertext. -/
theorem decryptJsonPayload_encrypt {P Q : Type} (aead : AeadPrimitive)
    (stringifyUtf8 : P → Bytes) (parseUtf8Json : Bytes → Option Q) (payload : P)
    (passphrase roomCode passphrase2 roomCode2 : Str) (adO adO2 : Option Str)
    (salt iv : Bytes)
    (hsalt : ∀ b ∈ salt, b < 256) (hiv : ∀ b ∈ iv, b < 256)
    (hct : ∀ b ∈ aead.encrypt (kdfKeyMaterial passphrase roomCode) salt iv adO
      (stringifyUtf8 payload), b < 256) :
    decryptJsonPayload aead parseUtf8Json
        (encryptJsonPayload aead stringifyUtf8 payload passphrase roomCode adO salt iv)
        passphrase2 roomCode2 adO2 =
      match aead.decrypt (kdfKeyMaterial passphrase2 roomCode2) salt iv adO2
          (aead.encrypt (kdfKeyMaterial passphrase roomCode) salt iv adO
            (stringifyUtf8 payload)) with
      | none => .error "DECRYPTION_FAILED"
      | some plaintext =>
        match parseUtf8Json plaintext with
        | none => .error "SyntaxError"
        | some v => .ok v := by
  unfold decryptJsonPayload encryptJsonPayload
  dsimp only
  rw [base64ToBytes_bytesToBase64 salt hsalt, base64ToBytes_bytesToBase64 iv hiv,
    base64ToBytes_bytesToBase64 _ hct]

/-- The usability check succeeds on a matching, well-timed envelope. -/
theorem ensureEnvelopeUsable_ok (e : SignalEnvelopeV1) (rc : Str) (now' : Nat)
    (hrcp : roomCodeParse rc = .ok e.roomCode)
    (hwin : validateEnvelopeTimeWindow e = .ok ())
    (hexp : now' ≤ e.expiresAt) :
    ensureEnvelopeUsable e rc now' = .ok e.roomCode := by
  unfold ensureEnvelopeUsable
  rw [hrcp]
  simp [hwin, show ¬ (e.expiresAt < now') from by omega]

/-- Reduction of decryptOfferEnvelope past the usability, type and role
    checks. -/
theorem decryptOfferEnvelope_reaches (aead : AeadPrimitive)
    (parseUtf8Json : Bytes → Option OfferPayloadV1) (e : SignalEnvelopeV1)
    (rc passphrase : Str) (now' : Nat)
    (hrcp : roomCodeParse rc = .ok e.roomCode)
    (hwin : validateEnvelopeTimeWindow e = .ok ())
    (hexp : now' ≤ e.expiresAt)
    (htype : e.type = .offer) (hrole : e.senderRole = .host) :
    decryptOfferEnvelope aead parseUtf8Json e rc passphrase now' =
      match decryptJsonPayload aead parseUtf8Json
          ⟨e.saltB64, e.ivB64, e.ciphertextB64⟩ passphrase e.roomCode
          (some (envelopeAdditionalData e)) with
      | .error err => .error err
      | .ok payload =>
        if offerPayloadSchemaOk payload then .ok payload
        else .error "Invalid offer payload." := by
  unfold decryptOfferEnvelope
  rw [ensureEnvelopeUsable_ok e rc now' hrcp hwin hexp]
  simp [htype, hrole]

/-- A decryption refusal of the primitive surfaces as the opaque
    DECRYPTION_FAILED error of decryptOfferEnvelope. -/
theorem decryptOfferEnvelope_failed (aead : AeadPrimitive)
    (parseUtf8Json : Bytes → Option OfferPayloadV1) (e : SignalEnvelopeV1)
    (rc passphrase : Str) (salt iv ct : Bytes) (now' : Nat)
    (hrcp : roomCodeParse rc = .ok e.roomCode)
    (hwin : validateEnvelopeTimeWindow e = .ok ())
    (hexp : now' ≤ e.expiresAt)
    (htype : e.type = .offer) (hrole : e.senderRole = .host)
    (hsb : e.saltB64 = bytesToBase64 salt) (hib : e.ivB64 = bytesToBase64 iv)
    (hcb : e.ciphertextB64 = bytesToBase64 ct)
    (hsalt : ∀ b ∈ salt, b < 256) (hiv : ∀ b ∈ iv, b < 256)
    (hct : ∀ b ∈ ct, b < 256)
    (hdec : aead.decrypt (kdfKeyMaterial passphrase e.roomCode) salt iv
      (some (envelopeAdditionalData e)) ct = none) :
    decryptOfferEnvelope aead parseUtf8Json e rc passphrase now' =
      .error "DECRYPTION_FAILED" := by
  rw [decryptOfferEnvelope_reaches aead parseUtf8Json e rc passphrase now'
    hrcp hwin hexp htype hrole]
  unfold decryptJsonPayload
  rw [hsb, hib, hcb]
  simp only [base64ToBytes_bytesToBase64 salt hsalt,
    base64ToBytes_bytesToBase64 iv hiv, base64ToBytes_bytesToBase64 ct hct, hdec]

/-- A failing time window surfaces through the usability check. -/
theorem decryptOfferEnvelope_badwindow (aead : AeadPrimitive)
    (parseUtf8Json : Bytes → Option OfferPayloadV1) (e : SignalEnvelopeV1)
    (rc passphrase : Str) (now' : Nat)
    (hrcp : roomCodeParse rc = .ok e.roomCode)
    (hbad : validateEnvelopeTimeWindow e = .error "Packet lifetime is invalid.") :
    decryptOfferEnvelope aead parseUtf8Json e rc passphrase now' =
      .error "Packet lifetime is invalid." := by
  have hens : ensureEnvelopeUsable e rc now' = .error "Packet lifetime is invalid." := by
    unfold ensureEnvelopeUsable
    rw [hrcp]
    simp [hbad]
  unfold decryptOfferEnvelope
  rw [hens]

/-- A mismatching room code surfaces through the usability check. -/
theorem decryptOfferEnvelope_roomMismatch (aead : AeadPrimitive)
    (parseUtf8Json : Bytes → Option OfferPayloadV1) (e : SignalEnvelopeV1)
    (rc passphrase : Str) (now' : Nat)
    (hrcp : roomCodeParse rc = .ok rc) (hne : e.roomCode ≠ rc) :
    decryptOfferEnvelope aead parseUtf8Json e rc passphrase now' =
      .error "This packet does not belong to this room code." := by
  have hens : ensureEnvelopeUsable e rc now' =
      .error "This packet does not belong to this room code." := by
    unfold ensureEnvelopeUsable
    rw [hrcp]
    simp [hne]
  unfold decryptOfferEnvelope
  rw [hens]

/-- A wrong type tag fails the cross-consistency check of the offer path. -/
theorem decryptOfferEnvelope_wrongType (aead : AeadPrimitive)
    (parseUtf8Json : Bytes → Option OfferPayloadV1) (e : SignalEnvelopeV1)
    (rc passphrase : Str) (now' : Nat)
    (hrcp : roomCodeParse rc = .ok e.roomCode)
    (hwin : validateEnvelopeTimeWindow e = .ok ())
    (hexp : now' ≤ e.expiresAt)
    (htype : e.type = .answer) :
    decryptOfferEnvelope aead parseUtf8Json e rc passphrase now' =
      .error "Expected an offer packet." := by
  unfold decryptOfferEnvelope
  rw [ensureEnvelopeUsable_ok e rc now' hrcp hwin hexp]
  simp [htype]

/-- A wrong role tag fails the cross-consistency check of the offer path. -/
theorem decryptOfferEnvelope_wrongRole (aead : AeadPrimitive)
    (parseUtf8Json : Bytes → Option OfferPayloadV1) (e : SignalEnvelopeV1)
    (rc passphrase : Str) (now' : Nat)
    (hrcp : roomCodeParse rc = .ok e.roomCode)
    (hwin : validateEnvelopeTimeWindow e = .ok ())
    (hexp : now' ≤ e.expiresAt)
    (htype : e.type = .offer) (hrole : e.senderRole = .joiner) :
    decryptOfferEnvelope aead parseUtf8Json e rc passphrase now' =
      .error "Offer packet role is invalid." := by
  unfold decryptOfferEnvelope
  rw [ensureEnvelopeUsable_ok e rc now' hrcp hwin hexp]
  simp [htype, hrole]

/-- An offer-role envelope relabeled answer fails the role check of the
    answer path. -/
theorem decryptAnswerEnvelope_wrongRole (aead : AeadPrimitive)
    (parseUtf8Json : Bytes → Option AnswerPayloadV1) (e : SignalEnvelopeV1)
    (rc passphrase : Str) (now' : Nat)
    (hrcp : roomCodeParse rc = .ok e.roomCode)
    (hwin : validateEnvelopeTimeWindow e = .ok ())
    (hexp : now' ≤ e.expiresAt)
    (htype : e.type = .answer) (hrole : e.senderRole = .host) :
    decryptAnswerEnvelope aead parseUtf8Json e rc passphrase now' =
      .error "Answer packet role is invalid." := by
  unfold decryptAnswerEnvelope
  rw [ensureEnvelopeUsable_ok e rc now' hrcp hwin hexp]
  simp [htype, hrole]

/-- C2 as amended: for an offer envelope produced by createSignalEnvelope
    and an ideal authenticated-encryption primitive, mutating version (to
    any other string), createdAt by +1 or expiresAt by -1 changes the
    recomputed associated data and fails with the opaque DECRYPTION_FAILED;
    mutating createdAt by -1 or expiresAt by +1 pushes the window past the
    ten-minute lifetime and fails the time-window validation instead;
    mutating the type fails the type cross-check of either decrypt path
    before any decryption; mutating senderRole fails the role cross-check;
    and mutating roomCode fails the room-code match of the usability
    check. -/
theorem claim_C2_metadata_tamper {P : Type} (aead : AeadPrimitive)
    (stringifyUtf8 : P → Bytes) (parseUtf8Json : Bytes → Option OfferPayloadV1)
    (parseAnswerJson : Bytes → Option AnswerPayloadV1)
    (payload : P) (passphrase roomCode rc : Str) (salt iv : Bytes) (now now' : Nat)
    (hrc : roomCodeParse roomCode = .ok rc)
    (hsalt : ∀ b ∈ salt, b < 256) (hiv : ∀ b ∈ iv, b < 256)
    (hct : ∀ b ∈ aead.encrypt (kdfKeyMaterial passphrase rc) salt iv
      (some (buildEnvelopeAdditionalData SIGNAL_VERSION .offer rc now
        (now + PACKET_TTL_MS) .host)) (stringifyUtf8 payload), b < 256)
    (hauth : ∀ adO, adO ≠ some (buildEnvelopeAdditionalData SIGNAL_VERSION .offer rc
        now (now + PACKET_TTL_MS) .host) →
      aead.decrypt (kdfKeyMaterial passphrase rc) salt iv adO
        (aead.encrypt (kdfKeyMaterial passphrase rc) salt iv
          (some (buildEnvelopeAdditionalData SIGNAL_VERSION .offer rc now
            (now + PACKET_TTL_MS) .host)) (stringifyUtf8 payload)) = none)
    (hnow : 1 ≤ now) (hnow' : now' + 1 ≤ now + PACKET_TTL_MS) :
    ∃ e, createSignalEnvelope aead stringifyUtf8 payload passphrase roomCode
        .offer .host salt iv now = .ok e ∧
      (∀ v', v' ≠ SIGNAL_VERSION →
        decryptOfferEnvelope aead parseUtf8Json { e with version := v' } rc
          passphrase now' = .error "DECRYPTION_FAILED") ∧
      decryptOfferEnvelope aead parseUtf8Json { e with createdAt := e.createdAt + 1 }
        rc passphrase now' = .error "DECRYPTION_FAILED" ∧
      decryptOfferEnvelope aead parseUtf8Json { e with expiresAt := e.expiresAt - 1 }
        rc passphrase now' = .error "DECRYPTION_FAILED" ∧
      decryptOfferEnvelope aead parseUtf8Json { e with createdAt := e.createdAt - 1 }
        rc passphrase now' = .error "Packet lifetime is invalid." ∧
      decryptOfferEnvelope aead parseUtf8Json { e with expiresAt := e.expiresAt + 1 }
        rc passphrase now' = .error "Packet lifetime is invalid." ∧
      decryptOfferEnvelope aead parseUtf8Json { e with type := .answer } rc
        passphrase now' = .error "Expected an offer packet." ∧
      decryptAnswerEnvelope aead parseAnswerJson { e with type := .answer } rc
        passphrase now' = .error "Answer packet role is invalid." ∧
      decryptOfferEnvelope aead parseUtf8Json { e with senderRole := .joiner } rc
        passphrase now' = .error "Offer packet role is invalid." ∧
      (∀ rc', rc' ≠ rc →
        decryptOfferEnvelope aead parseUtf8Json { e with roomCode := rc' } rc
          passphrase now' = .error "This packet does not belong to this room code.") := by
  obtain ⟨hrcidem, -, -, -⟩ := roomCodeParse_idem hrc
  have hTTL : PACKET_TTL_MS = 600000 := rfl
  refine ⟨_, createSignalEnvelope_ok aead stringifyUtf8 payload passphrase roomCode
    .offer .host salt iv now hrc, ?_, ?_, ?_, ?_, ?_, ?_, ?_, ?_, ?_⟩
  · intro v' hv'
    apply decryptOfferEnvelope_failed aead parseUtf8Json _ rc passphrase salt iv _ now'
      hrcidem ?_ ?_ rfl rfl rfl rfl rfl hsalt hiv hct ?_
    · unfold validateEnvelopeTimeWindow
      dsimp only
      rw [if_neg (by omega), if_neg (by omega)]
    · show now' ≤ now + PACKET_TTL_MS
      omega
    · apply hauth
      intro heq
      simp only [Option.some.injEq] at heq
      exact hv' (buildAD_version_inj heq)
  · apply decryptOfferEnvelope_failed aead parseUtf8Json _ rc passphrase salt iv _ now'
      hrcidem ?_ ?_ rfl rfl rfl rfl rfl hsalt hiv hct ?_
    · unfold validateEnvelopeTimeWindow
      dsimp only
      rw [if_neg (by omega), if_neg (by omega)]
    · show now' ≤ now + PACKET_TTL_MS
      omega
    · apply hauth
      intro heq
      simp only [Option.some.injEq] at heq
      have h2 : now + 1 = now := buildAD_createdAt_inj heq
      omega
  · apply decryptOfferEnvelope_failed aead parseUtf8Json _ rc passphrase salt iv _ now'
      hrcidem ?_ ?_ rfl rfl rfl rfl rfl hsalt hiv hct ?_
    · unfold validateEnvelopeTimeWindow
      dsimp only
      rw [if_neg (by omega), if_neg (by omega)]
    · show now' ≤ now + PACKET_TTL_MS - 1
      omega
    · apply hauth
      intro heq
      simp only [Option.some.injEq] at heq
      have h2 : now + PACKET_TTL_MS - 1 = now + PACKET_TTL_MS :=
        buildAD_expiresAt_inj heq
      omega
  · apply decryptOfferEnvelope_badwindow aead parseUtf8Json _ rc passphrase now' hrcidem
    unfold validateEnvelopeTimeWindow
    dsimp only
    rw [if_neg (by omega), if_pos (by omega)]
  · apply decryptOfferEnvelope_badwindow aead parseUtf8Json _ rc passphrase now' hrcidem
    unfold validateEnvelopeTimeWindow
    dsimp only
    rw [if_neg (by omega), if_pos (by omega)]
  · apply decryptOfferEnvelope_wrongType aead parseUtf8Json _ rc passphrase now'
      hrcidem ?_ ?_ rfl
    · unfold validateEnvelopeTimeWindow
      dsimp only
      rw [if_neg (by omega), if_neg (by omega)]
    · show now' ≤ now + PACKET_TTL_MS
      omega
  · apply decryptAnswerEnvelope_wrongRole aead parseAnswerJson _ rc passphrase now'
      hrcidem ?_ ?_ rfl rfl
    · unfold validateEnvelopeTimeWindow
      dsimp only
      rw [if_neg (by omega), if_neg (by omega)]
    · show now' ≤ now + PACKET_TTL_MS
      omega
  · apply decryptOfferEnvelope_wrongRole aead parseUtf8Json _ rc passphrase now'
      hrcidem ?_ ?_ rfl rfl
    · unfold validateEnvelopeTimeWindow
      dsimp only
      rw [if_neg (by omega), if_neg (by omega)]
    · show now' ≤ now + PACKET_TTL_MS
      omega
  · intro rc' hne
    exact decryptOfferEnvelope_roomMismatch aead parseUtf8Json _ rc passphrase now'
      hrcidem hne

/-- The associated data of the concrete claim C2 envelope. -/
def cxAdC2 : Str :=
  buildEnvelopeAdditionalData SIGNAL_VERSION .offer (("room-1").toList) 1000 601000 .host

/-- Concrete ideal primitive: the ciphertext is the plaintext, and
    decryption succeeds exactly for the matching additional data. -/
def cxAeadC2 : AeadPrimitive :=
  ⟨fun _ _ _ _ pt => pt,
   fun _ _ _ adO ct => if adO = some cxAdC2 then some ct else none⟩

/-- Concrete salt bytes. -/
def cxSalt : Bytes := List.replicate 16 3

/-- Concrete nonce bytes. -/
def cxIv : Bytes := List.replicate 12 4

/-- Concrete serialized payload bytes. -/
def cxPlain : Bytes := List.replicate 12 65

/-- The envelope created from the concrete inputs. -/
def cxC2Env : SignalEnvelopeV1 :=
  ⟨SIGNAL_VERSION, .offer, ("room-1").toList, 1000, 601000,
   bytesToBase64 cxSalt, bytesToBase64 cxIv, bytesToBase64 cxPlain, .host⟩

/-- Counterexample to claim C2 as stated: on an envelope produced by
    createSignalEnvelope, raising expiresAt by one fails the time-window
    validation with a message that is not DECRYPTION_FAILED, and switching
    the type fails the type cross-check, again not DECRYPTION_FAILED. -/
theorem claim_C2_counterexample :
    createSignalEnvelope cxAeadC2 (fun (_ : Unit) => cxPlain) () (("pass-one").toList)
        (("room-1").toList) .offer .host cxSalt cxIv 1000 = .ok cxC2Env ∧
    decryptOfferEnvelope cxAeadC2 (fun _ => none) { cxC2Env with expiresAt := 601001 }
        (("room-1").toList) (("pass-one").toList) 1001 =
      .error "Packet lifetime is invalid." ∧
    ("Packet lifetime is invalid." : String) ≠ "DECRYPTION_FAILED" ∧
    decryptOfferEnvelope cxAeadC2 (fun _ => none) { cxC2Env with type := .answer }
        (("room-1").toList) (("pass-one").toList) 1001 =
      .error "Expected an offer packet." ∧
    ("Expected an offer packet." : String) ≠ "DECRYPTION_FAILED" := by decide

/-- Witness for claim C2 at the concrete inputs: a version change and a
    createdAt bump give DECRYPTION_FAILED, an expiresAt bump fails the
    lifetime validation, and a room-code change fails the room check. -/
theorem claim_C2_witness :
    decryptOfferEnvelope cxAeadC2 (fun _ => none) { cxC2Env with version := ("2").toList }
        (("room-1").toList) (("pass-one").toList) 1001 = .error "DECRYPTION_FAILED" ∧
    decryptOfferEnvelope cxAeadC2 (fun _ => none) { cxC2Env with createdAt := 1001 }
        (("room-1").toList) (("pass-one").toList) 1001 = .error "DECRYPTION_FAILED" ∧
    decryptOfferEnvelope cxAeadC2 (fun _ => none) { cxC2Env with expiresAt := 601001 }
        (("room-1").toList) (("pass-one").toList) 1001 =
      .error "Packet lifetime is invalid." ∧
    decryptOfferEnvelope cxAeadC2 (fun _ => none) { cxC2Env with roomCode := ("room-2").toList }
        (("room-1").toList) (("pass-one").toList) 1001 =
      .error "This packet does not belong to this room code." := by
  obtain ⟨e, hcreate, hver, hcat, hexpm, hcatm, hexpp, htype, hans, hrole, hroom⟩ :=
    claim_C2_metadata_tamper cxAeadC2 (fun (_ : Unit) => cxPlain) (fun _ => none)
      (fun _ => none) () (("pass-one").toList) (("room-1").toList) (("room-1").toList)
      cxSalt cxIv 1000 1001 (by decide) (by decide) (by decide) (by decide)
      (fun adO hne => by
        show (if adO = some cxAdC2 then some _ else none) = none
        rw [if_neg (show adO ≠ some cxAdC2 from hne)])
      (by decide) (by decide)
  have h0 : createSignalEnvelope cxAeadC2 (fun (_ : Unit) => cxPlain) ()
      (("pass-one").toList) (("room-1").toList) .offer .host cxSalt cxIv 1000 =
      .ok cxC2Env := by decide
  rw [hcreate] at h0
  have he : e = cxC2Env := by
    injection h0
  subst he
  exact ⟨hver (("2").toList) (by decide), hcat, hexpp, hroom (("room-2").toList) (by decide)⟩

/-! ## Character and chunk lemmas for the transport format -/

theorem char_ne_of_pred {p : Char → Bool} {c x : Char} (h : p c = true)
    (hx : p x = false) : c ≠ x := by
  intro he
  subst he
  rw [h] at hx
  exact Bool.noConfusion hx

theorem not_space_of_pred {p : Char → Bool}
    (hsp : p ' ' = false ∧ p '\t' = false ∧ p '\n' = false ∧ p '\r' = false ∧
      p '\x0b' = false ∧ p '\x0c' = false) {c : Char} (h : p c = true) :
    isJsSpace c = false := by
  by_contra hcon
  simp only [Bool.not_eq_false] at hcon
  unfold isJsSpace at hcon
  simp only [Bool.or_eq_true, decide_eq_true_eq] at hcon
  obtain ⟨h1, h2, h3, h4, h5, h6⟩ := hsp
  rcases hcon with ((((hc | hc) | hc) | hc) | hc) | hc <;> subst hc <;>
    simp_all

/-- Characters a url-safe base64 string may contain: the substituted
    alphabet plus padding. -/
def isB64UrlChar (c : Char) : Bool := c.isAlphanum || c = '-' || c = '_' || c = '='


theorem isDigit_not_space {c : Char} (h : c.isDigit = true) : isJsSpace c = false :=
  not_space_of_pred (by decide) h

theorem isHexLower_not_space {c : Char} (h : isHexLowerChar c = true) :
    isJsSpace c = false :=
  not_space_of_pred (by decide) h

theorem isB64Url_not_space {c : Char} (h : isB64UrlChar c = true) :
    isJsSpace c = false :=
  not_space_of_pred (by decide) h

theorem b64UrlSubst_char_class : ∀ n, n < 64 → isB64UrlChar (b64UrlSubst (b64Char n)) = true := by
  decide

theorem mem_dropTrailingEq {s : List Char} {c : Char} (h : c ∈ dropTrailingEq s) :
    c ∈ s := by
  unfold dropTrailingEq at h
  rw [List.mem_reverse] at h
  have hsub : List.Sublist (s.reverse.dropWhile (fun c => c = '=')) s.reverse :=
    List.dropWhile_sublist (fun c => c = '=')
  exact List.mem_reverse.mp (hsub.mem h)

theorem bytesToBase64Url_chars {bs : Bytes} (hb : ∀ b ∈ bs, b < 256) :
    ∀ c ∈ bytesToBase64Url bs, isB64UrlChar c = true := by
  intro c hc
  obtain ⟨body, pad, heq, hpad, hlen, hmem⟩ := bytesToBase64_shape bs hb
  unfold bytesToBase64Url at hc
  have hc2 := mem_dropTrailingEq hc
  obtain ⟨d, hd, hdc⟩ := List.mem_map.mp hc2
  rw [heq] at hd
  rcases List.mem_append.mp hd with hd2 | hd2
  · obtain ⟨n, hn, hdn⟩ := hmem d hd2
    rw [← hdc, hdn]
    exact b64UrlSubst_char_class n hn
  · have : d = '=' := List.eq_of_mem_replicate hd2
    subst this
    rw [← hdc]
    decide

theorem jsNumberNat_natDecimal (n : Nat) : jsNumberNat (natDecimal n) = some n := by
  unfold jsNumberNat
  rw [if_pos ⟨natDecimal_ne_nil n, List.all_eq_true.mpr (natDecimal_digits n)⟩,
    decimalVal_natDecimal]

theorem chunksOfGo_fuel : ∀ f1 f2 p, p.length < f1 → p.length < f2 →
    chunksOfGo f1 p = chunksOfGo f2 p := by
  intro f1
  induction f1 with
  | zero => intro f2 p h1; omega
  | succ g ih =>
    intro f2 p h1 h2
    cases f2 with
    | zero => omega
    | succ g2 =>
      unfold chunksOfGo
      by_cases hp : p.isEmpty
      · rw [if_pos hp, if_pos hp]
      · rw [if_neg hp, if_neg hp]
        have hplen : 0 < p.length := by
          cases p with
          | nil => simp at hp
          | cons a l => simp
        have hd : (p.drop TRANSPORT_CHUNK_CHAR_LIMIT).length < g := by
          rw [List.length_drop]
          unfold TRANSPORT_CHUNK_CHAR_LIMIT
          omega
        have hd2 : (p.drop TRANSPORT_CHUNK_CHAR_LIMIT).length < g2 := by
          rw [List.length_drop]
          unfold TRANSPORT_CHUNK_CHAR_LIMIT
          omega
        rw [ih g2 _ hd hd2]

/-- One unfolding step of the slicing loop. -/
theorem chunksOf_step (p : Str) : chunksOf p =
    if p.isEmpty then []
    else p.take TRANSPORT_CHUNK_CHAR_LIMIT ::
      chunksOf (p.drop TRANSPORT_CHUNK_CHAR_LIMIT) := by
  have hL : chunksOf p = chunksOfGo (p.length + 1) p := rfl
  by_cases hp : p.isEmpty
  · rw [if_pos hp, hL]
    unfold chunksOfGo
    rw [if_pos hp]
  · rw [if_neg hp, hL]
    unfold chunksOfGo
    rw [if_neg hp]
    congr 1
    rw [show chunksOf (p.drop TRANSPORT_CHUNK_CHAR_LIMIT) =
      chunksOfGo ((p.drop TRANSPORT_CHUNK_CHAR_LIMIT).length + 1)
        (p.drop TRANSPORT_CHUNK_CHAR_LIMIT) from rfl]
    apply chunksOfGo_fuel
    · rw [List.length_drop]
      have hplen : 0 < p.length := by
        cases p with
        | nil => simp at hp
        | cons a l => simp
      unfold TRANSPORT_CHUNK_CHAR_LIMIT
      omega
    · omega

/-- The slices concatenate back to the payload. -/
theorem flatten_chunksOf (p : Str) : (chunksOf p).flatten = p := by
  rw [chunksOf_step]
  by_cases hp : p.isEmpty
  · rw [if_pos hp]
    cases p with
    | nil => rfl
    | cons a l => simp at hp
  · rw [if_neg hp]
    rw [List.flatten_cons, flatten_chunksOf (p.drop TRANSPORT_CHUNK_CHAR_LIMIT)]
    exact List.take_append_drop _ p
termination_by p.length
decreasing_by
  rw [List.length_drop]
  have hplen : 0 < p.length := by
    cases p with
    | nil => simp at hp
    | cons a l => simp
  unfold TRANSPORT_CHUNK_CHAR_LIMIT
  omega

/-- Every slice is non-empty and made of payload characters. -/
theorem chunksOf_pieces (p : Str) : ∀ piece ∈ chunksOf p,
    piece ≠ [] ∧ ∀ c ∈ piece, c ∈ p := by
  rw [chunksOf_step]
  by_cases hp : p.isEmpty
  · rw [if_pos hp]
    intro piece hmem
    exact absurd hmem (List.not_mem_nil piece)
  · rw [if_neg hp]
    have hplen : 0 < p.length := by
      cases p with
      | nil => simp at hp
      | cons a l => simp
    intro piece hmem
    rcases List.mem_cons.mp hmem with hmem2 | hmem2
    · subst hmem2
      constructor
      · intro hnil
        have hlen := congrArg List.length hnil
        rw [List.length_take] at hlen
        simp only [List.length_nil] at hlen
        unfold TRANSPORT_CHUNK_CHAR_LIMIT at hlen
        omega
      · intro c hc
        exact List.mem_of_mem_take hc
    · have hrec := chunksOf_pieces (p.drop TRANSPORT_CHUNK_CHAR_LIMIT) piece hmem2
      exact ⟨hrec.1, fun c hc => List.mem_of_mem_drop (hrec.2 c hc)⟩
termination_by p.length
decreasing_by
  rw [List.length_drop]
  unfold TRANSPORT_CHUNK_CHAR_LIMIT
  omega

theorem isHexLower_ne_pipe {c : Char} (h : isHexLowerChar c = true) : c ≠ '|' :=
  char_ne_of_pred h (by decide)

theorem isDigit_ne_pipe {c : Char} (h : c.isDigit = true) : c ≠ '|' :=
  char_ne_of_pred h (by decide)

theorem isDigit_ne_slash {c : Char} (h : c.isDigit = true) : c ≠ '/' :=
  char_ne_of_pred h (by decide)

theorem isB64Url_ne_pipe {c : Char} (h : isB64UrlChar c = true) : c ≠ '|' :=
  char_ne_of_pred h (by decide)

/-- Splitting a two-token separated pair. -/
theorem splitOnChar_pair {sep : Char} {a b : List Char}
    (ha : sep ∉ a) (hb : sep ∉ b) :
    splitOnChar sep (a ++ sep :: b) = [a, b] := by
  rw [splitOnChar_append_sep ha, splitOnChar_no_sep hb]

/-- Parsing inverts serialization on well-formed chunks. -/
theorem parseChunkLine_serializeChunk (c : TransportChunk)
    (hlen : c.packetId.length = 16) (hhex : c.packetId.all isHexLowerChar = true)
    (hidx : 1 ≤ c.partIndex) (htot : c.partIndex ≤ c.partTotal)
    (hpay : ∀ ch ∈ c.payload, isB64UrlChar ch = true) :
    parseChunkLine (serializeChunk c) = .ok c := by
  have hnp1 : ('|' : Char) ∉ PACKET_HEADER := by decide
  have hnp2 : ('|' : Char) ∉ c.packetId := fun hmem =>
    isHexLower_ne_pipe (List.all_eq_true.mp hhex _ hmem) rfl
  have hnp3 : ('|' : Char) ∉ natDecimal c.partIndex ++ '/' :: natDecimal c.partTotal := by
    intro hmem
    rcases List.mem_append.mp hmem with hm | hm
    · exact isDigit_ne_pipe (natDecimal_digits _ _ hm) rfl
    · rcases List.mem_cons.mp hm with hm2 | hm2
      · exact absurd hm2 (by decide)
      · exact isDigit_ne_pipe (natDecimal_digits _ _ hm2) rfl
    
  have hnp4 : ('|' : Char) ∉ c.payload := fun hmem =>
    isB64Url_ne_pipe (hpay _ hmem) rfl
  have hser : serializeChunk c = PACKET_HEADER ++ '|' :: (c.packetId ++ '|' ::
      ((natDecimal c.partIndex ++ '/' :: natDecimal c.partTotal) ++
        '|' :: c.payload)) := by
    unfold serializeChunk
    simp
  have hsplit : splitOnChar '|' (serializeChunk c) =
      [PACKET_HEADER, c.packetId,
       natDecimal c.partIndex ++ '/' :: natDecimal c.partTotal, c.payload] := by
    rw [hser, splitOnChar_append_sep hnp1, splitOnChar_append_sep hnp2,
      splitOnChar_append_sep hnp3, splitOnChar_no_sep hnp4]
  have hnds1 : ('/' : Char) ∉ natDecimal c.partIndex := fun hmem =>
    isDigit_ne_slash (natDecimal_digits _ _ hmem) rfl
  have hnds2 : ('/' : Char) ∉ natDecimal c.partTotal := fun hmem =>
    isDigit_ne_slash (natDecimal_digits _ _ hmem) rfl
  unfold parseChunkLine
  rw [hsplit]
  simp only [splitOnChar_pair hnds1 hnds2, jsNumberNat_natDecimal,
    List.all_eq_true]
  rw [if_neg (by simp)]
  rw [if_neg (not_not_intro ⟨hlen, List.all_eq_true.mp hhex⟩)]
  rw [if_neg (by omega)]

/-- A serialized chunk line is non-empty and free of whitespace. -/
theorem serializeChunk_line_props (c : TransportChunk)
    (hhex : c.packetId.all isHexLowerChar = true)
    (hpay : ∀ ch ∈ c.payload, isB64UrlChar ch = true) :
    serializeChunk c ≠ [] ∧ ∀ ch ∈ serializeChunk c, isJsSpace ch = false := by
  constructor
  · intro hnil
    have := congrArg List.length hnil
    simp [serializeChunk, PACKET_HEADER] at this
  · intro ch hmem
    have hhead : ∀ x ∈ PACKET_HEADER, isJsSpace x = false := by decide
    unfold serializeChunk at hmem
    rcases List.mem_append.mp hmem with hm | hm
    swap
    · rcases List.mem_cons.mp hm with hm1 | hm1
      · subst hm1; decide
      · exact isB64Url_not_space (hpay _ hm1)
    rcases List.mem_append.mp hm with hm2 | hm2
    swap
    · rcases List.mem_cons.mp hm2 with hm3 | hm3
      · subst hm3; decide
      · exact isDigit_not_space (natDecimal_digits _ _ hm3)
    rcases List.mem_append.mp hm2 with hm4 | hm4
    swap
    · rcases List.mem_cons.mp hm4 with hm5 | hm5
      · subst hm5; decide
      · exact isDigit_not_space (natDecimal_digits _ _ hm5)
    rcases List.mem_append.mp hm4 with hm6 | hm6
    · exact hhead ch hm6
    · rcases List.mem_cons.mp hm6 with hm7 | hm7
      · subst hm7; decide
      · exact isHexLower_not_space (List.all_eq_true.mp hhex _ hm7)

/-- getTransportLines undoes the newline join on space-free non-empty
    lines. -/
theorem getTransportLines_joinWith (ls : List Str) (hls : ls ≠ [])
    (hne : ∀ l ∈ ls, l ≠ [])
    (hns : ∀ l ∈ ls, ∀ c ∈ l, isJsSpace c = false) :
    getTransportLines (joinWith '\n' ls) = ls := by
  have hnl : ∀ l ∈ ls, ('\n' : Char) ∉ l := by
    intro l hl hmem
    have := hns l hl _ hmem
    rw [show isJsSpace '\n' = true from by decide] at this
    exact Bool.noConfusion this
  unfold getTransportLines
  rw [splitOnChar_joinWith ls hls hnl]
  have hmap : ls.map trimChars = ls := by
    conv_rhs => rw [← List.map_id ls]
    apply List.map_congr_left
    intro l hl
    apply trimChars_eq_self
    intro c hc
    simp [hns l hl c hc]
  rw [hmap]
  apply List.filter_eq_self.mpr
  intro l hl
  simp only [Bool.not_eq_true']
  rw [List.isEmpty_eq_false_iff_exists_mem]
  cases hcl : l with
  | nil => exact absurd hcl (hne l hl)
  | cons a t => exact ⟨a, List.mem_cons_self a t⟩

/-- mapM over a list whose elements all succeed. -/
theorem mapM_eq_ok_of_forall {α β : Type} (f : α → Except String β) (g : α → β) :
    ∀ l : List α, (∀ x ∈ l, f x = .ok (g x)) → l.mapM f = .ok (l.map g) := by
  intro l
  induction l with
  | nil => intro _; rfl
  | cons a t ih =>
    intro hall
    rw [List.mapM_cons, hall a (List.mem_cons_self a t),
      ih (fun x hx => hall x (List.mem_cons_of_mem a hx))]
    rfl

/-- find? on a list whose only matches are one fixed element. -/
theorem find?_unique {α : Type} (p : α → Bool) (c : α) :
    ∀ l : List α, (∀ x ∈ l, p x = true → x = c) → (∃ x ∈ l, p x = true) →
      l.find? p = some c := by
  intro l
  induction l with
  | nil =>
    rintro - ⟨x, hx, -⟩
    exact absurd hx (List.not_mem_nil x)
  | cons a t ih =>
    rintro hall ⟨x, hx, hpx⟩
    by_cases hpa : p a = true
    · rw [List.find?_cons_of_pos _ hpa, hall a (List.mem_cons_self a t) hpa]
    · rw [List.find?_cons_of_neg _ (by simpa using hpa)]
      apply ih (fun y hy hpy => hall y (List.mem_cons_of_mem a hy) hpy)
      rcases List.mem_cons.mp hx with he | hm
      · subst he
        exact absurd hpx hpa
      · exact ⟨x, hm, hpx⟩

/-- Characterization of the chunks built by chunkParts. -/
theorem mem_chunkParts {pid : Str} {N : Nat} :
    ∀ {ps : List Str} {i : Nat} {c : TransportChunk},
      c ∈ chunkParts pid N i ps ↔
        ∃ j, j < ps.length ∧ c = ⟨pid, i + 1 + j, N, ps.getD j []⟩ := by
  intro ps
  induction ps with
  | nil =>
    intro i c
    simp [chunkParts]
  | cons p ps ih =>
    intro i c
    simp only [chunkParts, List.mem_cons, ih]
    constructor
    · rintro (rfl | ⟨j, hj, rfl⟩)
      · exact ⟨0, by simp, by simp⟩
      · refine ⟨j + 1, by simp [Nat.succ_lt_succ hj], ?_⟩
        have harith : i + 1 + 1 + j = i + 1 + (j + 1) := by omega
        rw [harith]
        simp
    · rintro ⟨j, hj, rfl⟩
      cases j with
      | zero =>
        left
        simp
      | succ j2 =>
        right
        refine ⟨j2, by simpa using hj, ?_⟩
        have harith : i + 1 + (j2 + 1) = i + 1 + 1 + j2 := by omega
        rw [harith]
        simp

theorem chunkParts_length (pid : Str) (N : Nat) :
    ∀ (ps : List Str) (i : Nat), (chunkParts pid N i ps).length = ps.length := by
  intro ps
  induction ps with
  | nil => intro i; rfl
  | cons p ps ih => intro i; simp [chunkParts, ih]

/-- The lookup of the dedup map over the built chunks. -/
theorem lastWithIndex_chunkParts (pid : Str) (N : Nat) (ps : List Str) (i j : Nat)
    (hj : j < ps.length) :
    lastWithIndex (chunkParts pid N i ps) (i + 1 + j) =
      some ⟨pid, i + 1 + j, N, ps.getD j []⟩ := by
  unfold lastWithIndex
  apply find?_unique
  · intro x hx hpx
    rw [List.mem_reverse] at hx
    obtain ⟨j2, hj2, rfl⟩ := mem_chunkParts.mp hx
    simp only [decide_eq_true_eq] at hpx
    have : j2 = j := by omega
    subst this
    rfl
  · refine ⟨⟨pid, i + 1 + j, N, ps.getD j []⟩, ?_, by simp⟩
    rw [List.mem_reverse]
    exact mem_chunkParts.mpr ⟨j, hj, rfl⟩

/-- Reassembly of the built chunks restores the partitioned payload. -/
theorem reassemble_chunkParts (pid : Str) (parts : List Str) :
    reassemblePayload (chunkParts pid parts.length 0 parts) parts.length =
      parts.flatten := by
  unfold reassemblePayload
  congr 1
  apply List.ext_getElem (by simp)
  intro idx h1 h2
  simp only [List.getElem_map, List.getElem_range]
  have hlook := lastWithIndex_chunkParts pid parts.length parts 0 idx (by simpa using h2)
  rw [show 0 + 1 + idx = idx + 1 from by omega] at hlook
  rw [hlook]
  show parts.getD idx [] = parts[idx]
  exact List.getD_eq_getElem parts [] (by simpa using h2)

/-- The tail of the decode pipeline from the reassembled payload onward
    (signalPacket.ts lines 286 to 300), factored for the robustness
    proofs: it depends on nothing but the payload text. -/
def decodePayloadTail (ungzip : Bytes → Option Bytes)
    (envelopeParseUtf8Json : Bytes → Option SignalEnvelopeV1) (payload : Str) :
    Except String SignalEnvelopeV1 :=
  match base64UrlToBytes payload with
  | none => .error "InvalidCharacterError"
  | some compressedBytes =>
    if MAX_COMPRESSED_BYTES < compressedBytes.length then
      .error "Packet payload is too large."
    else
      match ungzip compressedBytes with
      | none => .error "incorrect header check"
      | some decompressed =>
        if MAX_DECOMPRESSED_CHARS < decompressed.length then
          .error "Packet decompressed payload is too large."
        else
          match envelopeParseUtf8Json decompressed with
          | none => .error "SyntaxError"
          | some parsed =>
            match signalEnvelopeSchemaParse parsed with
            | none => .error "Invalid envelope."
            | some envelope =>
              match validateEnvelopeTimeWindow envelope with
              | .error e => .error e
              | .ok _ => .ok envelope

/-- Reduction of decode to the payload tail once the chunk layer checks
    pass. -/
theorem decode_reduce (ungzip : Bytes → Option Bytes)
    (pe : Bytes → Option SignalEnvelopeV1) (input : Str) (c0 : TransportChunk)
    (rest : List TransportChunk)
    (h1 : input.length ≤ MAX_PACKET_TEXT_CHARS)
    (h2 : getTransportLines input ≠ [])
    (h3 : (getTransportLines input).length ≤ MAX_CHUNK_COUNT)
    (h4 : (getTransportLines input).mapM parseChunkLine = .ok (c0 :: rest))
    (h5 : ∀ c ∈ c0 :: rest, c.packetId = c0.packetId ∧ c.partTotal = c0.partTotal)
    (h6 : ((c0 :: rest).map (fun c => c.partIndex)).dedup.length = c0.partTotal) :
    decodeEnvelopeFromTransport ungzip pe input =
      decodePayloadTail ungzip pe (reassemblePayload (c0 :: rest) c0.partTotal) := by
  have hemp : (getTransportLines input).isEmpty = false := by
    cases hc : getTransportLines input with
    | nil => exact absurd hc h2
    | cons a t => rfl
  have hany : ((c0 :: rest).any fun c =>
      decide (c.packetId ≠ c0.packetId ∨ c.partTotal ≠ c0.partTotal)) = false := by
    rw [List.any_eq_false]
    intro x hx
    simp [(h5 x hx).1, (h5 x hx).2]
  unfold decodeEnvelopeFromTransport
  rw [if_neg (by omega)]
  dsimp only
  rw [hemp]
  simp only [Bool.false_eq_true, if_false]
  rw [if_neg (by omega), h4]
  simp only [hany, Bool.false_eq_true, if_false, h6, ne_eq, not_true_eq_false]
  rfl

/-- Shape of a successful encode. -/
theorem encode_ok (gz : Bytes → Bytes) (envJson : SignalEnvelopeV1 → Bytes)
    (packetId : Str) (envelope : SignalEnvelopeV1)
    (hsize : (bytesToBase64Url (gz (envJson envelope))).length ≤ MAX_PACKET_TEXT_CHARS)
    (hcount : (chunksOf (bytesToBase64Url (gz (envJson envelope)))).length ≤ MAX_CHUNK_COUNT) :
    encodeEnvelopeForTransport gz envJson packetId envelope =
      .ok (joinWith '\n'
        ((chunkParts packetId
          (chunksOf (bytesToBase64Url (gz (envJson envelope)))).length 0
          (chunksOf (bytesToBase64Url (gz (envJson envelope))))).map serializeChunk)) := by
  unfold encodeEnvelopeForTransport splitPayloadIntoChunks
  dsimp only
  rw [if_neg (by omega), if_neg (by omega)]

/-- mapM of a pointwise-succeeding function, with the support of the
    output list related to the input. -/
theorem mapM_ok_of_forall_ok {α β : Type} (f : α → Except String β) :
    ∀ l : List α, (∀ x ∈ l, ∃ y, f x = .ok y) →
      ∃ ys, l.mapM f = .ok ys ∧ ys.length = l.length ∧
        (∀ y ∈ ys, ∃ x ∈ l, f x = .ok y) ∧ (∀ x ∈ l, ∃ y ∈ ys, f x = .ok y) := by
  intro l
  induction l with
  | nil => intro _; exact ⟨[], rfl, rfl, by simp, by simp⟩
  | cons a t ih =>
    intro hall
    obtain ⟨y0, hy0⟩ := hall a (List.mem_cons_self a t)
    obtain ⟨ys, hys, hlen, hback, hforth⟩ :=
      ih (fun x hx => hall x (List.mem_cons_of_mem a hx))
    refine ⟨y0 :: ys, ?_, by simp [hlen], ?_, ?_⟩
    · rw [List.mapM_cons, hy0, hys]
      rfl
    · intro y hy
      rcases List.mem_cons.mp hy with he | hm
      · exact ⟨a, List.mem_cons_self a t, he ▸ hy0⟩
      · obtain ⟨x, hx, hfx⟩ := hback y hm
        exact ⟨x, List.mem_cons_of_mem a hx, hfx⟩
    · intro x hx
      rcases List.mem_cons.mp hx with he | hm
      · exact ⟨y0, List.mem_cons_self y0 ys, he ▸ hy0⟩
      · obtain ⟨y, hy, hfy⟩ := hforth x hm
        exact ⟨y, List.mem_cons_of_mem y0 hy, hfy⟩

/-- The indices of the built chunks, in order. -/
theorem chunkParts_index_map (pid : Str) (N : Nat) :
    ∀ (ps : List Str) (i : Nat),
      (chunkParts pid N i ps).map (fun c => c.partIndex) =
        (List.range ps.length).map (fun j => i + 1 + j) := by
  intro ps
  induction ps with
  | nil => intro i; rfl
  | cons p ps ih =>
    intro i
    rw [List.length_cons, List.range_succ_eq_map]
    simp only [chunkParts, List.map_cons, List.map_map, ih]
    congr 1
    apply List.map_congr_left
    intro j hj
    simp only [Function.comp_apply]
    omega

theorem chunkParts_index_nodup (pid : Str) (N : Nat) (ps : List Str) (i : Nat) :
    ((chunkParts pid N i ps).map (fun c => c.partIndex)).Nodup := by
  rw [chunkParts_index_map]
  exact List.Nodup.map (fun a b hab => by omega) (List.nodup_range _)

/-- Chunks built by chunkParts are determined by their index. -/
theorem chunkParts_uniq (pid : Str) (N : Nat) (ps : List Str) (i : Nat) :
    ∀ c1 ∈ chunkParts pid N i ps, ∀ c2 ∈ chunkParts pid N i ps,
      c1.partIndex = c2.partIndex → c1 = c2 := by
  intro c1 h1 c2 h2 heq
  obtain ⟨j1, hj1, rfl⟩ := mem_chunkParts.mp h1
  obtain ⟨j2, hj2, rfl⟩ := mem_chunkParts.mp h2
  have heq2 : i + 1 + j1 = i + 1 + j2 := heq
  have : j1 = j2 := by omega
  subst this
  rfl

theorem dedup_length_same_support {l1 l2 : List Nat} (h : ∀ x, x ∈ l1 ↔ x ∈ l2) :
    l1.dedup.length = l2.dedup.length := by
  rw [← List.card_toFinset, ← List.card_toFinset]
  congr 1
  ext x
  simp only [List.mem_toFinset]
  exact h x

/-- Reassembly only depends on the support of the chunk list when chunks
    are determined by their index. -/
theorem reassemble_same_support {cs cs' : List TransportChunk} (total : Nat)
    (hsupp : ∀ c, c ∈ cs' ↔ c ∈ cs)
    (huniq : ∀ c1 ∈ cs, ∀ c2 ∈ cs, c1.partIndex = c2.partIndex → c1 = c2) :
    reassemblePayload cs' total = reassemblePayload cs total := by
  unfold reassemblePayload
  congr 1
  apply List.map_congr_left
  intro i hi
  by_cases hex : ∃ c ∈ cs, c.partIndex = i + 1
  · obtain ⟨c, hc, hci⟩ := hex
    have h1 : lastWithIndex cs (i + 1) = some c := by
      unfold lastWithIndex
      apply find?_unique
      · intro x hx hpx
        simp only [decide_eq_true_eq] at hpx
        exact huniq x (List.mem_reverse.mp hx) c hc (by rw [hpx, hci])
      · exact ⟨c, List.mem_reverse.mpr hc, by simp [hci]⟩
    have h2 : lastWithIndex cs' (i + 1) = some c := by
      unfold lastWithIndex
      apply find?_unique
      · intro x hx hpx
        simp only [decide_eq_true_eq] at hpx
        exact huniq x ((hsupp x).mp (List.mem_reverse.mp hx)) c hc (by rw [hpx, hci])
      · exact ⟨c, List.mem_reverse.mpr ((hsupp c).mpr hc), by simp [hci]⟩
    rw [h1, h2]
  · push_neg at hex
    have h1 : lastWithIndex cs (i + 1) = none := by
      unfold lastWithIndex
      rw [List.find?_eq_none]
      intro x hx
      simp only [decide_eq_true_eq]
      exact hex x (List.mem_reverse.mp hx)
    have h2 : lastWithIndex cs' (i + 1) = none := by
      unfold lastWithIndex
      rw [List.find?_eq_none]
      intro x hx
      simp only [decide_eq_true_eq]
      exact hex x ((hsupp x).mp (List.mem_reverse.mp hx))
    rw [h1, h2]

theorem map_eraseIdx {a b : Type} (f : a → b) :
    ∀ (l : List a) (k : Nat), (l.map f).eraseIdx k = (l.eraseIdx k).map f := by
  intro l
  induction l with
  | nil => intro k; rfl
  | cons x t ih =>
    intro k
    cases k with
    | zero => rfl
    | succ k2 =>
      show f x :: (t.map f).eraseIdx k2 = f x :: (t.eraseIdx k2).map f
      rw [ih k2]

/-- Parsing the serialized lines of well-formed chunks restores the
    chunks. -/
theorem mapM_parse_serialize :
    ∀ cs : List TransportChunk,
      (∀ c ∈ cs, parseChunkLine (serializeChunk c) = .ok c) →
      (cs.map serializeChunk).mapM parseChunkLine = .ok cs := by
  intro cs
  induction cs with
  | nil => intro _; rfl
  | cons c t ih =>
    intro hall
    rw [List.map_cons, List.mapM_cons, hall c (List.mem_cons_self c t),
      ih (fun x hx => hall x (List.mem_cons_of_mem c hx))]
    rfl

/-- The chunks built over a base64url payload under a well-formed packet
    id all round-trip through serialization and produce non-empty,
    whitespace-free lines, carry the shared packet id and part total. -/
theorem chunkParts_roundtrip (pid payloadText : Str)
    (hlen : pid.length = 16) (hhex : pid.all isHexLowerChar = true)
    (hpay : ∀ ch ∈ payloadText, isB64UrlChar ch = true) :
    ∀ c ∈ chunkParts pid (chunksOf payloadText).length 0 (chunksOf payloadText),
      parseChunkLine (serializeChunk c) = .ok c ∧ serializeChunk c ≠ [] ∧
        (∀ ch ∈ serializeChunk c, isJsSpace ch = false) ∧
        c.packetId = pid ∧ c.partTotal = (chunksOf payloadText).length := by
  intro c hc
  obtain ⟨j, hj, rfl⟩ := mem_chunkParts.mp hc
  have hmem : (chunksOf payloadText).getD j [] ∈ chunksOf payloadText := by
    rw [List.getD_eq_getElem _ _ hj]
    exact List.getElem_mem hj
  have hp : ∀ ch ∈ (chunksOf payloadText).getD j [], isB64UrlChar ch = true := by
    intro ch hch
    exact hpay ch ((chunksOf_pieces payloadText _ hmem).2 ch hch)
  obtain ⟨hne, hns⟩ := serializeChunk_line_props ⟨pid, 0 + 1 + j,
    (chunksOf payloadText).length, (chunksOf payloadText).getD j []⟩ hhex hp
  refine ⟨?_, hne, hns, rfl, rfl⟩
  exact parseChunkLine_serializeChunk _ hlen hhex
    (by show 1 ≤ 0 + 1 + j; omega)
    (by show 0 + 1 + j ≤ (chunksOf payloadText).length; omega) hp

/-- Reaching the missing-chunk error once the chunk layer checks pass but
    the distinct indices do not cover the part total. -/
theorem decode_reduce_missing (ungzip : Bytes → Option Bytes)
    (pe : Bytes → Option SignalEnvelopeV1) (input : Str) (c0 : TransportChunk)
    (rest : List TransportChunk)
    (h1 : input.length ≤ MAX_PACKET_TEXT_CHARS)
    (h2 : getTransportLines input ≠ [])
    (h3 : (getTransportLines input).length ≤ MAX_CHUNK_COUNT)
    (h4 : (getTransportLines input).mapM parseChunkLine = .ok (c0 :: rest))
    (h5 : ∀ c ∈ c0 :: rest, c.packetId = c0.packetId ∧ c.partTotal = c0.partTotal)
    (h6 : ((c0 :: rest).map (fun c => c.partIndex)).dedup.length ≠ c0.partTotal) :
    decodeEnvelopeFromTransport ungzip pe input =
      .error "Packet is missing one or more chunks." := by
  have hemp : (getTransportLines input).isEmpty = false := by
    cases hc : getTransportLines input with
    | nil => exact absurd hc h2
    | cons a t => rfl
  have hany : ((c0 :: rest).any fun c =>
      decide (c.packetId ≠ c0.packetId ∨ c.partTotal ≠ c0.partTotal)) = false := by
    rw [List.any_eq_false]
    intro x hx
    simp [(h5 x hx).1, (h5 x hx).2]
  unfold decodeEnvelopeFromTransport
  rw [if_neg (by omega)]
  dsimp only
  rw [hemp]
  simp only [Bool.false_eq_true, if_false]
  rw [if_neg (by omega), h4]
  simp only [hany, Bool.false_eq_true, if_false]
  rw [if_pos h6]

/-- Decoding any newline join of lines drawn from (and covering) the
    serialized chunks of a payload reaches the payload tail on the
    original payload: the order and multiplicity of the lines do not
    matter. -/
theorem decode_of_support_equal (ungzip : Bytes → Option Bytes)
    (pe : Bytes → Option SignalEnvelopeV1) (pid payloadText : Str)
    (lines2 : List Str)
    (hlen : pid.length = 16) (hhex : pid.all isHexLowerChar = true)
    (hpay : ∀ ch ∈ payloadText, isB64UrlChar ch = true)
    (hsupp : ∀ l, l ∈ lines2 ↔
      l ∈ (chunkParts pid (chunksOf payloadText).length 0
        (chunksOf payloadText)).map serializeChunk)
    (hne : lines2 ≠ [])
    (hsize : (joinWith '\n' lines2).length ≤ MAX_PACKET_TEXT_CHARS)
    (hcount : lines2.length ≤ MAX_CHUNK_COUNT) :
    decodeEnvelopeFromTransport ungzip pe (joinWith '\n' lines2) =
      decodePayloadTail ungzip pe payloadText := by
  have hwf := chunkParts_roundtrip pid payloadText hlen hhex hpay
  have hlines2 : ∀ l ∈ lines2, ∃ c ∈ chunkParts pid (chunksOf payloadText).length 0
      (chunksOf payloadText), l = serializeChunk c := by
    intro l hl
    obtain ⟨c, hc, hlc⟩ := List.mem_map.mp ((hsupp l).mp hl)
    exact ⟨c, hc, hlc.symm⟩
  have hgt : getTransportLines (joinWith '\n' lines2) = lines2 := by
    apply getTransportLines_joinWith lines2 hne
    · intro l hl
      obtain ⟨c, hc, rfl⟩ := hlines2 l hl
      exact (hwf c hc).2.1
    · intro l hl
      obtain ⟨c, hc, rfl⟩ := hlines2 l hl
      exact (hwf c hc).2.2.1
  obtain ⟨chunks2, hmapm, hlen2, hback, hforth⟩ :=
    mapM_ok_of_forall_ok parseChunkLine lines2 (by
      intro l hl
      obtain ⟨c, hc, rfl⟩ := hlines2 l hl
      exact ⟨c, (hwf c hc).1⟩)
  have hcsupp : ∀ c, c ∈ chunks2 ↔ c ∈ chunkParts pid (chunksOf payloadText).length 0
      (chunksOf payloadText) := by
    intro c
    constructor
    · intro hc
      obtain ⟨l, hl, hfl⟩ := hback c hc
      obtain ⟨c2, hc2, rfl⟩ := hlines2 l hl
      rw [(hwf c2 hc2).1] at hfl
      injection hfl with h
      exact h ▸ hc2
    · intro hc
      have hl : serializeChunk c ∈ lines2 :=
        (hsupp _).mpr (List.mem_map_of_mem serializeChunk hc)
      obtain ⟨y, hy, hfy⟩ := hforth _ hl
      rw [(hwf c hc).1] at hfy
      injection hfy with h
      subst h
      exact hy
  have hne2 : chunks2 ≠ [] := by
    intro h0
    rw [h0] at hlen2
    cases hcl : lines2 with
    | nil => exact hne hcl
    | cons a t => rw [hcl] at hlen2; simp at hlen2
  obtain ⟨c0, rest, rfl⟩ : ∃ c0 rest, chunks2 = c0 :: rest := by
    cases chunks2 with
    | nil => exact absurd rfl hne2
    | cons a t => exact ⟨a, t, rfl⟩
  have hmemparts : ∀ c ∈ c0 :: rest, c.packetId = pid ∧
      c.partTotal = (chunksOf payloadText).length :=
    fun c hc => (hwf c ((hcsupp c).mp hc)).2.2.2
  have h5 : ∀ c ∈ c0 :: rest, c.packetId = c0.packetId ∧ c.partTotal = c0.partTotal := by
    intro c hc
    have ha := hmemparts c hc
    have hb := hmemparts c0 (List.mem_cons_self c0 rest)
    exact ⟨ha.1.trans hb.1.symm, ha.2.trans hb.2.symm⟩
  have hidxsupp : ∀ x, x ∈ (c0 :: rest).map (fun c => c.partIndex) ↔
      x ∈ (chunkParts pid (chunksOf payloadText).length 0
        (chunksOf payloadText)).map (fun c => c.partIndex) := by
    intro x
    simp only [List.mem_map]
    constructor
    · rintro ⟨c, hc, rfl⟩
      exact ⟨c, (hcsupp c).mp hc, rfl⟩
    · rintro ⟨c, hc, rfl⟩
      exact ⟨c, (hcsupp c).mpr hc, rfl⟩
  have hdedup : ((c0 :: rest).map (fun c => c.partIndex)).dedup.length = c0.partTotal := by
    rw [dedup_length_same_support hidxsupp,
      List.Nodup.dedup (chunkParts_index_nodup pid _ _ 0),
      List.length_map, chunkParts_length]
    exact (hmemparts c0 (List.mem_cons_self c0 rest)).2.symm
  have hreass : reassemblePayload (c0 :: rest) c0.partTotal = payloadText := by
    rw [(hmemparts c0 (List.mem_cons_self c0 rest)).2,
      reassemble_same_support _ hcsupp (chunkParts_uniq pid _ _ 0),
      reassemble_chunkParts]
    exact flatten_chunksOf payloadText
  rw [decode_reduce ungzip pe _ c0 rest hsize (by rw [hgt]; exact hne)
    (by rw [hgt]; exact hcount) (by rw [hgt]; exact hmapm) h5 hdedup, hreass]

/-- Removing one serialized chunk line from a multi-chunk transport text
    fails decoding with the missing-chunks error. -/
theorem decode_remove_chunk (ungzip : Bytes → Option Bytes)
    (pe : Bytes → Option SignalEnvelopeV1) (pid payloadText : Str) (k : Nat)
    (hlen : pid.length = 16) (hhex : pid.all isHexLowerChar = true)
    (hpay : ∀ ch ∈ payloadText, isB64UrlChar ch = true)
    (hk : k < (chunksOf payloadText).length)
    (h2N : 2 ≤ (chunksOf payloadText).length)
    (hcount : (chunksOf payloadText).length ≤ MAX_CHUNK_COUNT)
    (hcap : (joinWith '\n' (((chunkParts pid (chunksOf payloadText).length 0
        (chunksOf payloadText)).map serializeChunk).eraseIdx k)).length ≤
      MAX_PACKET_TEXT_CHARS) :
    decodeEnvelopeFromTransport ungzip pe
      (joinWith '\n' (((chunkParts pid (chunksOf payloadText).length 0
        (chunksOf payloadText)).map serializeChunk).eraseIdx k)) =
      .error "Packet is missing one or more chunks." := by
  have hwf := chunkParts_roundtrip pid payloadText hlen hhex hpay
  have hcpslen : (chunkParts pid (chunksOf payloadText).length 0
      (chunksOf payloadText)).length = (chunksOf payloadText).length :=
    chunkParts_length pid _ _ 0
  have hk2 : k < (chunkParts pid (chunksOf payloadText).length 0
      (chunksOf payloadText)).length := by omega
  have hmemE : ∀ c ∈ (chunkParts pid (chunksOf payloadText).length 0
      (chunksOf payloadText)).eraseIdx k,
      c ∈ chunkParts pid (chunksOf payloadText).length 0 (chunksOf payloadText) :=
    fun c hc => (List.eraseIdx_sublist _ k).subset hc
  have herlen : ((chunkParts pid (chunksOf payloadText).length 0
      (chunksOf payloadText)).eraseIdx k).length =
      (chunksOf payloadText).length - 1 := by
    rw [List.length_eraseIdx_of_lt hk2, hcpslen]
  rw [map_eraseIdx] at hcap ⊢
  obtain ⟨c0, rest, hcex⟩ : ∃ c0 rest, (chunkParts pid (chunksOf payloadText).length 0
      (chunksOf payloadText)).eraseIdx k = c0 :: rest := by
    cases hcl : (chunkParts pid (chunksOf payloadText).length 0
        (chunksOf payloadText)).eraseIdx k with
    | nil =>
      rw [hcl] at herlen
      simp at herlen
      omega
    | cons a t => exact ⟨a, t, rfl⟩
  rw [hcex] at hcap herlen ⊢
  have hmemE2 : ∀ c ∈ c0 :: rest, c ∈ chunkParts pid (chunksOf payloadText).length 0
      (chunksOf payloadText) := by
    intro c hc
    exact hmemE c (hcex ▸ hc)
  have hgt2 : getTransportLines (joinWith '\n' ((c0 :: rest).map serializeChunk)) =
      (c0 :: rest).map serializeChunk := by
    apply getTransportLines_joinWith
    · simp
    · intro l hl
      obtain ⟨c, hc, rfl⟩ := List.mem_map.mp hl
      exact (hwf c (hmemE2 c hc)).2.1
    · intro l hl
      obtain ⟨c, hc, rfl⟩ := List.mem_map.mp hl
      exact (hwf c (hmemE2 c hc)).2.2.1
  have hmapm2 : ((c0 :: rest).map serializeChunk).mapM parseChunkLine = .ok (c0 :: rest) :=
    mapM_parse_serialize _ (fun c hc => (hwf c (hmemE2 c hc)).1)
  have h5 : ∀ c ∈ c0 :: rest, c.packetId = c0.packetId ∧ c.partTotal = c0.partTotal := by
    intro c hc
    have ha := (hwf c (hmemE2 c hc)).2.2.2
    have hb := (hwf c0 (hmemE2 c0 (List.mem_cons_self c0 rest))).2.2.2
    exact ⟨ha.1.trans hb.1.symm, ha.2.trans hb.2.symm⟩
  have hidx : (c0 :: rest).map (fun c => c.partIndex) =
      ((chunkParts pid (chunksOf payloadText).length 0
        (chunksOf payloadText)).map (fun c => c.partIndex)).eraseIdx k := by
    rw [map_eraseIdx, hcex]
  have hnd : ((c0 :: rest).map (fun c => c.partIndex)).Nodup := by
    rw [hidx]
    exact List.Nodup.sublist (List.eraseIdx_sublist _ k) (chunkParts_index_nodup pid _ _ 0)
  have h6 : ((c0 :: rest).map (fun c => c.partIndex)).dedup.length ≠ c0.partTotal := by
    have htot := (hwf c0 (hmemE2 c0 (List.mem_cons_self c0 rest))).2.2.2.2
    rw [List.Nodup.dedup hnd, List.length_map, herlen, htot]
    omega
  exact decode_reduce_missing ungzip pe _ c0 rest hcap (by rw [hgt2]; simp)
    (by rw [hgt2, List.length_map]; omega)
    (by rw [hgt2]; exact hmapm2) h5 h6

/-- C4: for a transport text produced by encodeEnvelopeForTransport, any
    reordering or duplication of its chunk lines (a line list with the same
    support, within the decoder size caps) decodes to the same result as
    the original text, namely the payload tail of the pipeline on the
    encoded payload; removing one chunk line from a packet of at least two
    chunks fails with the missing-chunks error.  The one-chunk case behaves
    differently (see the counterexample): removing the only line leaves no
    packet data at all. -/
theorem claim_C4_chunk_robustness
    (gz : Bytes → Bytes) (envJson : SignalEnvelopeV1 → Bytes)
    (ungzip : Bytes → Option Bytes) (pe : Bytes → Option SignalEnvelopeV1)
    (packetId : Str) (envelope : SignalEnvelopeV1) (lines2 : List Str)
    (hlen : packetId.length = 16) (hhex : packetId.all isHexLowerChar = true)
    (hbytes : ∀ b ∈ gz (envJson envelope), b < 256)
    (hgzne : gz (envJson envelope) ≠ [])
    (hsize : (bytesToBase64Url (gz (envJson envelope))).length ≤ MAX_PACKET_TEXT_CHARS)
    (hcount : (chunksOf (bytesToBase64Url (gz (envJson envelope)))).length ≤
      MAX_CHUNK_COUNT) :
    ∃ text, encodeEnvelopeForTransport gz envJson packetId envelope = .ok text ∧
      (text.length ≤ MAX_PACKET_TEXT_CHARS →
        decodeEnvelopeFromTransport ungzip pe text =
          decodePayloadTail ungzip pe (bytesToBase64Url (gz (envJson envelope)))) ∧
      ((∀ l, l ∈ lines2 ↔ l ∈ getTransportLines text) → lines2 ≠ [] →
        (joinWith '\n' lines2).length ≤ MAX_PACKET_TEXT_CHARS →
        lines2.length ≤ MAX_CHUNK_COUNT →
        decodeEnvelopeFromTransport ungzip pe (joinWith '\n' lines2) =
          decodePayloadTail ungzip pe (bytesToBase64Url (gz (envJson envelope)))) ∧
      (∀ k, k < (getTransportLines text).length →
        2 ≤ (getTransportLines text).length →
        (joinWith '\n' ((getTransportLines text).eraseIdx k)).length ≤
          MAX_PACKET_TEXT_CHARS →
        decodeEnvelopeFromTransport ungzip pe
          (joinWith '\n' ((getTransportLines text).eraseIdx k)) =
          .error "Packet is missing one or more chunks.") := by
  have hpayne : bytesToBase64Url (gz (envJson envelope)) ≠ [] := by
    intro h0
    have hrt := base64UrlToBytes_bytesToBase64Url (gz (envJson envelope)) hbytes
    rw [h0] at hrt
    have hz : base64UrlToBytes ([] : Str) = some ([] : Bytes) := by decide
    rw [hz] at hrt
    injection hrt with h
    exact hgzne h.symm
  have hpe : (bytesToBase64Url (gz (envJson envelope))).isEmpty = false := by
    cases hcl : bytesToBase64Url (gz (envJson envelope)) with
    | nil => exact absurd hcl hpayne
    | cons a t => rfl
  have hparts : chunksOf (bytesToBase64Url (gz (envJson envelope))) ≠ [] := by
    rw [chunksOf_step, hpe]
    simp
  have hpay := bytesToBase64Url_chars hbytes
  have hwf := chunkParts_roundtrip packetId (bytesToBase64Url (gz (envJson envelope)))
    hlen hhex hpay
  have hlinesne : (chunkParts packetId
      (chunksOf (bytesToBase64Url (gz (envJson envelope)))).length 0
      (chunksOf (bytesToBase64Url (gz (envJson envelope))))).map serializeChunk ≠ [] := by
    intro h0
    have hl := congrArg List.length h0
    rw [List.length_map, chunkParts_length] at hl
    exact hparts (List.length_eq_zero.mp hl)
  have hgtorig : getTransportLines (joinWith '\n' ((chunkParts packetId
      (chunksOf (bytesToBase64Url (gz (envJson envelope)))).length 0
      (chunksOf (bytesToBase64Url (gz (envJson envelope))))).map serializeChunk)) =
      (chunkParts packetId
        (chunksOf (bytesToBase64Url (gz (envJson envelope)))).length 0
        (chunksOf (bytesToBase64Url (gz (envJson envelope))))).map serializeChunk := by
    apply getTransportLines_joinWith _ hlinesne
    · intro l hl
      obtain ⟨c, hc, rfl⟩ := List.mem_map.mp hl
      exact (hwf c hc).2.1
    · intro l hl
      obtain ⟨c, hc, rfl⟩ := List.mem_map.mp hl
      exact (hwf c hc).2.2.1
  refine ⟨_, encode_ok gz envJson packetId envelope hsize hcount, ?_, ?_, ?_⟩
  · intro hcap
    exact decode_of_support_equal ungzip pe packetId _ _ hlen hhex hpay
      (fun l => Iff.rfl) hlinesne hcap
      (by rw [List.length_map, chunkParts_length]; exact hcount)
  · intro hsupp2 hne2 hcap2 hcount2
    apply decode_of_support_equal ungzip pe packetId _ lines2 hlen hhex hpay ?_
      hne2 hcap2 hcount2
    intro l
    rw [← hgtorig]
    exact hsupp2 l
  · intro k hk h2N hcap3
    rw [hgtorig] at hk h2N hcap3 ⊢
    rw [List.length_map, chunkParts_length] at hk h2N
    exact decode_remove_chunk ungzip pe packetId _ k hlen hhex hpay hk h2N hcount hcap3

/-- A concrete envelope for the one-chunk packet counterexample; its field
    values are irrelevant to the chunk layer. -/
def cxC4Env : SignalEnvelopeV1 :=
  ⟨SIGNAL_VERSION, .offer, "abcd".toList, 1, 2, [], [], [], .host⟩

/-- C4 counterexample: a packet whose encoded payload fits in one chunk
    produces a one-line transport text, and removing that single line does
    not yield the missing-chunks error the claim names: the decoder
    reports that no packet data was found. -/
theorem claim_C4_counterexample :
    encodeEnvelopeForTransport (fun b => b) (fun _ => [66]) ("0123456789abcdef".toList)
      cxC4Env = .ok ("P2PV1|0123456789abcdef|1/1|Qg".toList) ∧
    (getTransportLines ("P2PV1|0123456789abcdef|1/1|Qg".toList)).length = 1 ∧
    decodeEnvelopeFromTransport (fun b => some b) (fun _ => none)
      (joinWith '\n'
        ((getTransportLines ("P2PV1|0123456789abcdef|1/1|Qg".toList)).eraseIdx 0)) =
      .error "No packet data was found." ∧
    (Except.error "No packet data was found." : Except String SignalEnvelopeV1) ≠
      .error "Packet is missing one or more chunks." := by
  decide

/-- C4 witness: the hypotheses of the robustness theorem hold at a
    concrete one-chunk packet, and its conclusion follows there. -/
theorem claim_C4_witness :
    (("0123456789abcdef".toList : Str).length = 16 ∧
      ("0123456789abcdef".toList : Str).all isHexLowerChar = true ∧
      (∀ b ∈ ([66] : Bytes), b < 256) ∧ ([66] : Bytes) ≠ [] ∧
      (bytesToBase64Url [66]).length ≤ MAX_PACKET_TEXT_CHARS ∧
      (chunksOf (bytesToBase64Url [66])).length ≤ MAX_CHUNK_COUNT) ∧
    (∃ text, encodeEnvelopeForTransport (fun b => b) (fun _ => [66])
        ("0123456789abcdef".toList) cxC4Env = .ok text ∧
      (text.length ≤ MAX_PACKET_TEXT_CHARS →
        decodeEnvelopeFromTransport (fun b => some b) (fun _ => none) text =
          decodePayloadTail (fun b => some b) (fun _ => none) (bytesToBase64Url [66])) ∧
      ((∀ l, l ∈ (["P2PV1|0123456789abcdef|1/1|Qg".toList] : List Str) ↔
          l ∈ getTransportLines text) →
        (["P2PV1|0123456789abcdef|1/1|Qg".toList] : List Str) ≠ [] →
        (joinWith '\n' (["P2PV1|0123456789abcdef|1/1|Qg".toList] : List Str)).length ≤
          MAX_PACKET_TEXT_CHARS →
        (["P2PV1|0123456789abcdef|1/1|Qg".toList] : List Str).length ≤ MAX_CHUNK_COUNT →
        decodeEnvelopeFromTransport (fun b => some b) (fun _ => none)
          (joinWith '\n' (["P2PV1|0123456789abcdef|1/1|Qg".toList] : List Str)) =
          decodePayloadTail (fun b => some b) (fun _ => none) (bytesToBase64Url [66])) ∧
      (∀ k, k < (getTransportLines text).length →
        2 ≤ (getTransportLines text).length →
        (joinWith '\n' ((getTransportLines text).eraseIdx k)).length ≤
          MAX_PACKET_TEXT_CHARS →
        decodeEnvelopeFromTransport (fun b => some b) (fun _ => none)
          (joinWith '\n' ((getTransportLines text).eraseIdx k)) =
          .error "Packet is missing one or more chunks.")) :=
  ⟨⟨by decide, by decide, by decide, by decide, by decide, by decide⟩,
    claim_C4_chunk_robustness (fun b => b) (fun _ => [66]) (fun b => some b)
      (fun _ => none) ("0123456789abcdef".toList) cxC4Env
      (["P2PV1|0123456789abcdef|1/1|Qg".toList]) (by decide) (by decide) (by decide)
      (by decide) (by decide) (by decide)⟩

/-- Length of standard base64 output: four characters per started group of
    three bytes. -/
theorem bytesToBase64_length : ∀ bs : Bytes,
    (bytesToBase64 bs).length = (bs.length + 2) / 3 * 4
  | [] => rfl
  | [_] => by simp [bytesToBase64]
  | [_, _] => by simp [bytesToBase64]
  | a :: b :: c :: rest => by
    simp only [bytesToBase64, List.length_cons, bytesToBase64_length rest]
    omega

/-- base64url of a non-empty byte list is non-empty. -/
theorem base64Url_ne_nil (bs : Bytes) (hb : ∀ b ∈ bs, b < 256) (hne : bs ≠ []) :
    bytesToBase64Url bs ≠ [] := by
  intro h0
  have hrt := base64UrlToBytes_bytesToBase64Url bs hb
  rw [h0] at hrt
  have hz : base64UrlToBytes ([] : Str) = some ([] : Bytes) := by decide
  rw [hz] at hrt
  injection hrt with h
  exact hne h.symm

theorem chunksOf_ne_nil {p : Str} (hp : p ≠ []) : chunksOf p ≠ [] := by
  have hpe : p.isEmpty = false := by
    cases p with
    | nil => exact absurd rfl hp
    | cons a t => rfl
  rw [chunksOf_step, hpe]
  simp

/-- The time window of a freshly created envelope is valid: its lifetime
    is exactly the packet TTL. -/
theorem validateEnvelopeTimeWindow_create (v : Str) (t : SignalEnvelopeType)
    (rc : Str) (now : Nat) (sB iB cB : Str) (role : SenderRole) :
    validateEnvelopeTimeWindow ⟨v, t, rc, now, now + PACKET_TTL_MS, sB, iB, cB, role⟩ =
      .ok () := by
  have hTTL : PACKET_TTL_MS = 600000 := rfl
  unfold validateEnvelopeTimeWindow
  dsimp only
  rw [if_neg (by omega), if_neg (by omega)]

/-- The envelope schema accepts a freshly created envelope: the room code
    is already trimmed, the timestamps positive and the base64 fields long
    enough when salt, nonce and ciphertext hold at least seven bytes. -/
theorem signalEnvelopeSchemaParse_create (t : SignalEnvelopeType)
    (role : SenderRole) (rc : Str) (now : Nat) (salt iv ct : Bytes)
    (hrc4 : 4 ≤ rc.length) (hrc48 : rc.length ≤ 48)
    (hrcall : rc.all isRoomCodeChar = true) (hnow : 0 < now)
    (hsalt : 7 ≤ salt.length) (hiv : 7 ≤ iv.length) (hct : 7 ≤ ct.length) :
    signalEnvelopeSchemaParse ⟨SIGNAL_VERSION, t, rc, now, now + PACKET_TTL_MS,
        bytesToBase64 salt, bytesToBase64 iv, bytesToBase64 ct, role⟩ =
      some ⟨SIGNAL_VERSION, t, rc, now, now + PACKET_TTL_MS,
        bytesToBase64 salt, bytesToBase64 iv, bytesToBase64 ct, role⟩ := by
  have htrim : trimChars rc = rc := by
    apply trimChars_eq_self
    intro c hcmem
    simp [roomCodeChar_not_space (List.all_eq_true.mp hrcall c hcmem)]
  have hTTL : PACKET_TTL_MS = 600000 := rfl
  unfold signalEnvelopeSchemaParse
  dsimp only
  rw [htrim]
  rw [if_pos ⟨rfl, hrc4, hrc48, hrcall, hnow, by omega,
    by rw [bytesToBase64_length]; omega,
    by rw [bytesToBase64_length]; omega,
    by rw [bytesToBase64_length]; omega⟩]

/-- Evaluation of the decode tail on the base64url encoding of compressed
    bytes the primitives invert, under the size caps, for an envelope the
    schema and time window accept. -/
theorem decodePayloadTail_ok (ungzip : Bytes → Option Bytes)
    (pe : Bytes → Option SignalEnvelopeV1) (cb db : Bytes) (e : SignalEnvelopeV1)
    (hb : ∀ b ∈ cb, b < 256)
    (hcomp : cb.length ≤ MAX_COMPRESSED_BYTES)
    (hun : ungzip cb = some db)
    (hdecomp : db.length ≤ MAX_DECOMPRESSED_CHARS)
    (hpe : pe db = some e)
    (hschema : signalEnvelopeSchemaParse e = some e)
    (hwin : validateEnvelopeTimeWindow e = .ok ()) :
    decodePayloadTail ungzip pe (bytesToBase64Url cb) = .ok e := by
  unfold decodePayloadTail
  rw [base64UrlToBytes_bytesToBase64Url cb hb]
  dsimp only
  rw [if_neg (by omega), hun]
  dsimp only
  rw [if_neg (by omega), hpe]
  dsimp only
  rw [hschema]
  dsimp only
  rw [hwin]

/-- Reduction of decryptAnswerEnvelope past the usability, type and role
    checks. -/
theorem decryptAnswerEnvelope_reaches (aead : AeadPrimitive)
    (parseUtf8Json : Bytes → Option AnswerPayloadV1) (e : SignalEnvelopeV1)
    (rc passphrase : Str) (now' : Nat)
    (hrcp : roomCodeParse rc = .ok e.roomCode)
    (hwin : validateEnvelopeTimeWindow e = .ok ())
    (hexp : now' ≤ e.expiresAt)
    (htype : e.type = .answer) (hrole : e.senderRole = .joiner) :
    decryptAnswerEnvelope aead parseUtf8Json e rc passphrase now' =
      match decryptJsonPayload aead parseUtf8Json
          ⟨e.saltB64, e.ivB64, e.ciphertextB64⟩ passphrase e.roomCode
          (some (envelopeAdditionalData e)) with
      | .error err => .error err
      | .ok payload =>
        if answerPayloadSchemaOk payload then .ok payload
        else .error "Invalid answer payload." := by
  unfold decryptAnswerEnvelope
  rw [ensureEnvelopeUsable_ok e rc now' hrcp hwin hexp]
  simp [htype, hrole]

/-- Full success of decryptOfferEnvelope when every stage inverts. -/
theorem decryptOfferEnvelope_ok (aead : AeadPrimitive)
    (parseUtf8Json : Bytes → Option OfferPayloadV1) (e : SignalEnvelopeV1)
    (rc passphrase : Str) (salt iv ct pt : Bytes) (payload : OfferPayloadV1)
    (now' : Nat)
    (hrcp : roomCodeParse rc = .ok e.roomCode)
    (hwin : validateEnvelopeTimeWindow e = .ok ())
    (hexp : now' ≤ e.expiresAt)
    (htype : e.type = .offer) (hrole : e.senderRole = .host)
    (hsb : e.saltB64 = bytesToBase64 salt) (hib : e.ivB64 = bytesToBase64 iv)
    (hcb : e.ciphertextB64 = bytesToBase64 ct)
    (hsaltb : ∀ b ∈ salt, b < 256) (hivb : ∀ b ∈ iv, b < 256)
    (hctb : ∀ b ∈ ct, b < 256)
    (hdec : aead.decrypt (kdfKeyMaterial passphrase e.roomCode) salt iv
      (some (envelopeAdditionalData e)) ct = some pt)
    (hparse : parseUtf8Json pt = some payload)
    (hok : offerPayloadSchemaOk payload = true) :
    decryptOfferEnvelope aead parseUtf8Json e rc passphrase now' = .ok payload := by
  rw [decryptOfferEnvelope_reaches aead parseUtf8Json e rc passphrase now'
    hrcp hwin hexp htype hrole]
  unfold decryptJsonPayload
  rw [hsb, hib, hcb]
  simp only [base64ToBytes_bytesToBase64 salt hsaltb,
    base64ToBytes_bytesToBase64 iv hivb, base64ToBytes_bytesToBase64 ct hctb,
    hdec, hparse]
  rw [if_pos hok]

/-- Full success of decryptAnswerEnvelope when every stage inverts. -/
theorem decryptAnswerEnvelope_ok (aead : AeadPrimitive)
    (parseUtf8Json : Bytes → Option AnswerPayloadV1) (e : SignalEnvelopeV1)
    (rc passphrase : Str) (salt iv ct pt : Bytes) (payload : AnswerPayloadV1)
    (now' : Nat)
    (hrcp : roomCodeParse rc = .ok e.roomCode)
    (hwin : validateEnvelopeTimeWindow e = .ok ())
    (hexp : now' ≤ e.expiresAt)
    (htype : e.type = .answer) (hrole : e.senderRole = .joiner)
    (hsb : e.saltB64 = bytesToBase64 salt) (hib : e.ivB64 = bytesToBase64 iv)
    (hcb : e.ciphertextB64 = bytesToBase64 ct)
    (hsaltb : ∀ b ∈ salt, b < 256) (hivb : ∀ b ∈ iv, b < 256)
    (hctb : ∀ b ∈ ct, b < 256)
    (hdec : aead.decrypt (kdfKeyMaterial passphrase e.roomCode) salt iv
      (some (envelopeAdditionalData e)) ct = some pt)
    (hparse : parseUtf8Json pt = some payload)
    (hok : answerPayloadSchemaOk payload = true) :
    decryptAnswerEnvelope aead parseUtf8Json e rc passphrase now' = .ok payload := by
  rw [decryptAnswerEnvelope_reaches aead parseUtf8Json e rc passphrase now'
    hrcp hwin hexp htype hrole]
  unfold decryptJsonPayload
  rw [hsb, hib, hcb]
  simp only [base64ToBytes_bytesToBase64 salt hsaltb,
    base64ToBytes_bytesToBase64 iv hivb, base64ToBytes_bytesToBase64 ct hctb,
    hdec, hparse]
  rw [if_pos hok]

/-- C1: the offline pipeline is the identity on schema-valid payloads.
    For every offer (resp. answer) payload accepted by the payload schema,
    with the runtime primitives inverting each other on the values the
    packet produces and the size caps met, createSignalEnvelope followed by
    encodeEnvelopeForTransport, decodeEnvelopeFromTransport and
    decryptOfferEnvelope (resp. decryptAnswerEnvelope) with the same
    passphrase and room code, before expiry, returns the original payload
    and the original envelope.  The schema hypothesis cannot be dropped:
    a payload rejected by the schema decrypts correctly but the pipeline
    ends in an error (see the counterexample). -/
theorem claim_C1_offline_pipeline_roundtrip (aead : AeadPrimitive)
    (stringifyOffer : OfferPayloadV1 → Bytes)
    (parseOffer : Bytes → Option OfferPayloadV1)
    (stringifyAnswer : AnswerPayloadV1 → Bytes)
    (parseAnswer : Bytes → Option AnswerPayloadV1)
    (gz : Bytes → Bytes) (ungzip : Bytes → Option Bytes)
    (envJson : SignalEnvelopeV1 → Bytes) (pe : Bytes → Option SignalEnvelopeV1)
    (offer : OfferPayloadV1) (answer : AnswerPayloadV1)
    (passphrase roomCode rc packetId : Str) (salt iv : Bytes) (now now2 : Nat)
    (hrc : roomCodeParse roomCode = .ok rc)
    (hnow : 0 < now) (hexp : now2 ≤ now + PACKET_TTL_MS)
    (hpidlen : packetId.length = 16) (hpidhex : packetId.all isHexLowerChar = true)
    (hsaltb : ∀ b ∈ salt, b < 256) (hivb : ∀ b ∈ iv, b < 256)
    (hsaltlen : salt.length = 16) (hivlen : iv.length = 12)
    (haead : ∀ adO pt, aead.decrypt (kdfKeyMaterial passphrase rc) salt iv adO
      (aead.encrypt (kdfKeyMaterial passphrase rc) salt iv adO pt) = some pt)
    (hparseO : parseOffer (stringifyOffer offer) = some offer)
    (hparseA : parseAnswer (stringifyAnswer answer) = some answer)
    (hokO : offerPayloadSchemaOk offer = true)
    (hokA : answerPayloadSchemaOk answer = true)
    (hctObytes : ∀ b ∈ aead.encrypt (kdfKeyMaterial passphrase rc) salt iv
      (some (buildEnvelopeAdditionalData SIGNAL_VERSION .offer rc now
        (now + PACKET_TTL_MS) .host)) (stringifyOffer offer), b < 256)
    (hctOlen : 7 ≤ (aead.encrypt (kdfKeyMaterial passphrase rc) salt iv
      (some (buildEnvelopeAdditionalData SIGNAL_VERSION .offer rc now
        (now + PACKET_TTL_MS) .host)) (stringifyOffer offer)).length)
    (hctAbytes : ∀ b ∈ aead.encrypt (kdfKeyMaterial passphrase rc) salt iv
      (some (buildEnvelopeAdditionalData SIGNAL_VERSION .answer rc now
        (now + PACKET_TTL_MS) .joiner)) (stringifyAnswer answer), b < 256)
    (hctAlen : 7 ≤ (aead.encrypt (kdfKeyMaterial passphrase rc) salt iv
      (some (buildEnvelopeAdditionalData SIGNAL_VERSION .answer rc now
        (now + PACKET_TTL_MS) .joiner)) (stringifyAnswer answer)).length) :
    (∃ e, createSignalEnvelope aead stringifyOffer offer passphrase roomCode
        .offer .host salt iv now = .ok e ∧
      decryptOfferEnvelope aead parseOffer e roomCode passphrase now2 = .ok offer ∧
      ((bytesToBase64Url (gz (envJson e))).length ≤ MAX_PACKET_TEXT_CHARS →
        (chunksOf (bytesToBase64Url (gz (envJson e)))).length ≤ MAX_CHUNK_COUNT →
        ∃ text, encodeEnvelopeForTransport gz envJson packetId e = .ok text ∧
          (text.length ≤ MAX_PACKET_TEXT_CHARS →
            (∀ b ∈ gz (envJson e), b < 256) → gz (envJson e) ≠ [] →
            (gz (envJson e)).length ≤ MAX_COMPRESSED_BYTES →
            ungzip (gz (envJson e)) = some (envJson e) →
            (envJson e).length ≤ MAX_DECOMPRESSED_CHARS →
            pe (envJson e) = some e →
            decodeEnvelopeFromTransport ungzip pe text = .ok e))) ∧
    (∃ e, createSignalEnvelope aead stringifyAnswer answer passphrase roomCode
        .answer .joiner salt iv now = .ok e ∧
      decryptAnswerEnvelope aead parseAnswer e roomCode passphrase now2 = .ok answer ∧
      ((bytesToBase64Url (gz (envJson e))).length ≤ MAX_PACKET_TEXT_CHARS →
        (chunksOf (bytesToBase64Url (gz (envJson e)))).length ≤ MAX_CHUNK_COUNT →
        ∃ text, encodeEnvelopeForTransport gz envJson packetId e = .ok text ∧
          (text.length ≤ MAX_PACKET_TEXT_CHARS →
            (∀ b ∈ gz (envJson e), b < 256) → gz (envJson e) ≠ [] →
            (gz (envJson e)).length ≤ MAX_COMPRESSED_BYTES →
            ungzip (gz (envJson e)) = some (envJson e) →
            (envJson e).length ≤ MAX_DECOMPRESSED_CHARS →
            pe (envJson e) = some e →
            decodeEnvelopeFromTransport ungzip pe text = .ok e))) := by
  obtain ⟨hrcidem, hrc4, hrc48, hrcall⟩ := roomCodeParse_idem hrc
  constructor
  · refine ⟨_, createSignalEnvelope_ok aead stringifyOffer offer passphrase roomCode
      .offer .host salt iv now hrc, ?_, ?_⟩
    · exact decryptOfferEnvelope_ok aead parseOffer _ roomCode passphrase salt iv _
        (stringifyOffer offer) offer now2 hrc
        (validateEnvelopeTimeWindow_create _ _ _ _ _ _ _ _) hexp rfl rfl rfl rfl rfl
        hsaltb hivb hctObytes (haead _ _) hparseO hokO
    · intro hsizeO hcountO
      refine ⟨_, encode_ok gz envJson packetId _ hsizeO hcountO, ?_⟩
      intro htext hgzb hgzne hcomp hun hdecomp hpe2
      have hpay := bytesToBase64Url_chars hgzb
      have hpartsne := chunksOf_ne_nil (base64Url_ne_nil _ hgzb hgzne)
      rw [decode_of_support_equal ungzip pe packetId _ _ hpidlen hpidhex hpay
        (fun l => Iff.rfl)
        (by
          intro h0
          have hl := congrArg List.length h0
          rw [List.length_map, chunkParts_length] at hl
          exact hpartsne (List.length_eq_zero.mp hl))
        htext (by rw [List.length_map, chunkParts_length]; exact hcountO)]
      exact decodePayloadTail_ok ungzip pe _ _ _ hgzb hcomp hun hdecomp hpe2
        (signalEnvelopeSchemaParse_create .offer .host rc now salt iv _
          hrc4 hrc48 hrcall hnow (by omega) (by omega) hctOlen)
        (validateEnvelopeTimeWindow_create _ _ _ _ _ _ _ _)
  · refine ⟨_, createSignalEnvelope_ok aead stringifyAnswer answer passphrase roomCode
      .answer .joiner salt iv now hrc, ?_, ?_⟩
    · exact decryptAnswerEnvelope_ok aead parseAnswer _ roomCode passphrase salt iv _
        (stringifyAnswer answer) answer now2 hrc
        (validateEnvelopeTimeWindow_create _ _ _ _ _ _ _ _) hexp rfl rfl rfl rfl rfl
        hsaltb hivb hctAbytes (haead _ _) hparseA hokA
    · intro hsizeA hcountA
      refine ⟨_, encode_ok gz envJson packetId _ hsizeA hcountA, ?_⟩
      intro htext hgzb hgzne hcomp hun hdecomp hpe2
      have hpay := bytesToBase64Url_chars hgzb
      have hpartsne := chunksOf_ne_nil (base64Url_ne_nil _ hgzb hgzne)
      rw [decode_of_support_equal ungzip pe packetId _ _ hpidlen hpidhex hpay
        (fun l => Iff.rfl)
        (by
          intro h0
          have hl := congrArg List.length h0
          rw [List.length_map, chunkParts_length] at hl
          exact hpartsne (List.length_eq_zero.mp hl))
        htext (by rw [List.length_map, chunkParts_length]; exact hcountA)]
      exact decodePayloadTail_ok ungzip pe _ _ _ hgzb hcomp hun hdecomp hpe2
        (signalEnvelopeSchemaParse_create .answer .joiner rc now salt iv _
          hrc4 hrc48 hrcall hnow (by omega) (by omega) hctAlen)
        (validateEnvelopeTimeWindow_create _ _ _ _ _ _ _ _)

/-- An offer payload rejected by offerPayloadSchema: its sessionId has
    only three characters (minimum six). -/
def cxBadOffer : OfferPayloadV1 :=
  ⟨("abc").toList, ("0123456789").toList, [], ("1080p30").toList, ("cx").toList⟩

/-- A schema-valid offer payload. -/
def cxGoodOffer : OfferPayloadV1 :=
  ⟨("abcdef").toList, ("0123456789").toList, [], ("1080p30").toList, ("cx").toList⟩

/-- A schema-valid answer payload. -/
def cxGoodAnswer : AnswerPayloadV1 :=
  ⟨("abcdef").toList, ("0123456789").toList, [], ("1080p30").toList, ("cx").toList⟩

/-- C1 counterexample: for a payload the offer schema rejects, the
    pipeline is not the identity even with perfectly inverting primitives
    and the correct passphrase and room code: decryptOfferEnvelope ends in
    the invalid-payload error after a successful decryption. -/
theorem claim_C1_counterexample :
    ∃ e, createSignalEnvelope cxAeadId (fun _ => [1, 2, 3, 4, 5, 6, 7]) cxBadOffer
        (("pass").toList) (("abcd").toList) .offer .host [0] [1] 5 = .ok e ∧
      decryptOfferEnvelope cxAeadId (fun _ => some cxBadOffer) e (("abcd").toList)
        (("pass").toList) 5 = .error "Invalid offer payload." ∧
      (Except.error "Invalid offer payload." : Except String OfferPayloadV1) ≠
        .ok cxBadOffer := by
  refine ⟨_, rfl, ?_, ?_⟩ <;> decide

/-- C1 witness: the pipeline hypotheses hold at concrete schema-valid
    payloads with identity primitives, and the round trip follows there. -/
theorem claim_C1_witness :
    (roomCodeParse (("abcd").toList) = .ok (("abcd").toList) ∧
      offerPayloadSchemaOk cxGoodOffer = true ∧
      answerPayloadSchemaOk cxGoodAnswer = true) ∧
    ((∃ e, createSignalEnvelope cxAeadId (fun _ => [1, 2, 3, 4, 5, 6, 7]) cxGoodOffer
        (("pass").toList) (("abcd").toList) .offer .host (List.replicate 16 0)
        (List.replicate 12 0) 5 = .ok e ∧
      decryptOfferEnvelope cxAeadId (fun _ => some cxGoodOffer) e (("abcd").toList)
        (("pass").toList) 6 = .ok cxGoodOffer ∧
      ((bytesToBase64Url ([66] : Bytes)).length ≤ MAX_PACKET_TEXT_CHARS →
        (chunksOf (bytesToBase64Url ([66] : Bytes))).length ≤ MAX_CHUNK_COUNT →
        ∃ text, encodeEnvelopeForTransport (fun bs => bs) (fun _ => [66])
            (("0123456789abcdef").toList) e = .ok text ∧
          (text.length ≤ MAX_PACKET_TEXT_CHARS →
            (∀ b ∈ ([66] : Bytes), b < 256) → ([66] : Bytes) ≠ [] →
            ([66] : Bytes).length ≤ MAX_COMPRESSED_BYTES →
            (some ([66] : Bytes) = some ([66] : Bytes)) →
            ([66] : Bytes).length ≤ MAX_DECOMPRESSED_CHARS →
            ((none : Option SignalEnvelopeV1) = some e) →
            decodeEnvelopeFromTransport (fun bs => some bs) (fun _ => none) text =
              .ok e))) ∧
    (∃ e, createSignalEnvelope cxAeadId (fun _ => [1, 2, 3, 4, 5, 6, 7]) cxGoodAnswer
        (("pass").toList) (("abcd").toList) .answer .joiner (List.replicate 16 0)
        (List.replicate 12 0) 5 = .ok e ∧
      decryptAnswerEnvelope cxAeadId (fun _ => some cxGoodAnswer) e (("abcd").toList)
        (("pass").toList) 6 = .ok cxGoodAnswer ∧
      ((bytesToBase64Url ([66] : Bytes)).length ≤ MAX_PACKET_TEXT_CHARS →
        (chunksOf (bytesToBase64Url ([66] : Bytes))).length ≤ MAX_CHUNK_COUNT →
        ∃ text, encodeEnvelopeForTransport (fun bs => bs) (fun _ => [66])
            (("0123456789abcdef").toList) e = .ok text ∧
          (text.length ≤ MAX_PACKET_TEXT_CHARS →
            (∀ b ∈ ([66] : Bytes), b < 256) → ([66] : Bytes) ≠ [] →
            ([66] : Bytes).length ≤ MAX_COMPRESSED_BYTES →
            (some ([66] : Bytes) = some ([66] : Bytes)) →
            ([66] : Bytes).length ≤ MAX_DECOMPRESSED_CHARS →
            ((none : Option SignalEnvelopeV1) = some e) →
            decodeEnvelopeFromTransport (fun bs => some bs) (fun _ => none) text =
              .ok e)))) :=
  ⟨⟨by decide, by decide, by decide⟩,
    claim_C1_offline_pipeline_roundtrip cxAeadId (fun _ => [1, 2, 3, 4, 5, 6, 7])
      (fun _ => some cxGoodOffer) (fun _ => [1, 2, 3, 4, 5, 6, 7])
      (fun _ => some cxGoodAnswer) (fun bs => bs) (fun bs => some bs)
      (fun _ => [66]) (fun _ => none) cxGoodOffer cxGoodAnswer (("pass").toList)
      (("abcd").toList) (("abcd").toList) (("0123456789abcdef").toList)
      (List.replicate 16 0) (List.replicate 12 0) 5 6
      (by decide) (by decide) (by decide) (by decide) (by decide) (by decide)
      (by decide) (by decide) (by decide) (fun adO pt => rfl) rfl rfl
      (by decide) (by decide) (by decide) (by decide) (by decide) (by decide)⟩

end P2P
